import Mathlib

/-!
# External scanner of the fixed-form Fortran grammar

A shallow embedding of `src/scanner.c`: the seven token kinds, the cursor the
host hands to the scanner, the character classes of the C library, and the
sub-scanners `scan_int`, `scan_number`, `scan_boz`, `scan_continuation`,
`scan_end_of_statement`, `scan_string_literal`, `scan_comment` and the
dispatcher `scan`.

Characters are code points (`Nat`), as `lexer->lookahead` is an `int32_t`.
Every C function that mutates the lexer and returns `bool` becomes a function
`TSLexer → Bool × TSLexer`.

The character constants of the source appear as their code points:
tab 9, line feed 10, carriage return 13, space 32, `!` 33, `"` 34, apostrophe 39,
`*` 42, `+` 43, `-` 45, `.` 46, `;` 59, `B` 66, `C` 67, `D` 68, `E` 69, `O` 79, `Z` 90,
`_` 95, `b` 98, `c` 99, `d` 100, `e` 101, `o` 111, `z` 122.
-/

namespace FixedFormFortran

/-! ## Data model -/

/-- The token kinds of `enum TokenType`, in the order of the source. -/
inductive TokenType where
  | LINE_CONTINUATION
  | INTEGER_LITERAL
  | FLOAT_LITERAL
  | BOZ_LITERAL
  | STRING_LITERAL
  | END_OF_STATEMENT
  | COMMENT_CHARACTER
  deriving DecidableEq, Repr

open TokenType

/-- Modelled from the spec: the cursor (`TSLexer` of `tree_sitter/parser.h`, which is
not among the sources). It exposes the lookahead character, the zero-based column,
an end-of-input test, an advance that includes or excludes the current character,
and `mark_end`.

* `input` is the text from the lookahead character on; end of input is `[]`.
* `pos` counts the characters consumed since the scan call began.
* `column` counts the characters since the last line feed.
* `token_start` is where the token begins: excluding a character moves it past
  that character.
* `token_end` is the position given to `mark_end`, if it was called.
* `result_symbol` is the kind the scanner recorded. -/
structure TSLexer where
  input : List Char
  pos : Nat
  column : Nat
  token_start : Nat
  token_end : Option Nat
  result_symbol : TokenType
  deriving DecidableEq, Repr

/-- The cursor at the beginning of a scan call: nothing consumed, no token end marked. -/
def ts_lexer_start (input : List Char) (column : Nat) (symbol : TokenType) : TSLexer :=
  { input := input, pos := 0, column := column, token_start := 0, token_end := none,
    result_symbol := symbol }

/-- The code point a text begins with, `0` for the empty text (the lookahead at the end
of input). -/
def peek : List Char → Nat
  | [] => 0
  | c :: _ => c.toNat

namespace TSLexer

/-- Modelled from the spec: the field `lexer->lookahead` of the cursor, the code point at
the cursor, `0` at end of input. -/
def lookahead (l : TSLexer) : Nat := peek l.input

/-- Modelled from the spec: the callback `lexer->eof(lexer)` of the cursor. -/
def eof (l : TSLexer) : Bool := l.input.isEmpty

/-- Modelled from the spec: the callback `lexer->advance(lexer, skip)` of the cursor. It
consumes the lookahead character; a line feed resets the column; with `skip` the
character is excluded, that is, the token starts after it. At end of input it does
nothing. -/
def advance (l : TSLexer) (skip : Bool) : TSLexer :=
  match l.input with
  | [] => l
  | c :: rest =>
    { l with
      input := rest
      pos := l.pos + 1
      column := if c.toNat = 10 then 0 else l.column + 1
      token_start := if skip then l.pos + 1 else l.token_start }

/-- Modelled from the spec: the callback `lexer->mark_end(lexer)` of the cursor, which
marks the current position as the end of the token. -/
def mark_end (l : TSLexer) : TSLexer := { l with token_end := some l.pos }

/-- Modelled from the spec: the end of the token a successful scan produces, which is the
marked end, or the cursor position when `mark_end` was never called. -/
def token_stop (l : TSLexer) : Nat := l.token_end.getD l.pos

/-- The number of characters the produced token covers: from `token_start` to
`token_stop`. -/
def token_length (l : TSLexer) : Nat := l.token_stop - l.token_start

end TSLexer

/-- Source `advance`: consume current character into current token and advance. -/
def advance (lexer : TSLexer) : TSLexer := lexer.advance false

/-- Source `skip`: ignore current character and advance. -/
def skip (lexer : TSLexer) : TSLexer := lexer.advance true

/-- Source `get_column`: the callback `lexer->get_column(lexer)` of the cursor. -/
def get_column (lexer : TSLexer) : Nat := lexer.column

/-! ## Character classes of the C library

The scanner calls `iswdigit`, `iswblank`, `iswspace`, `iswalnum`, `isalnum` and `isxdigit`
of `<wctype.h>` and `<ctype.h>`, which are not part of the sources. They are taken in the
"C" locale, where they classify ASCII characters only. -/

/-- Modelled from the spec: C `iswdigit`, the decimal digits `0` to `9`. -/
def iswdigit (c : Nat) : Bool := decide (48 ≤ c) && decide (c ≤ 57)

/-- Modelled from the spec: C `iswblank`, the horizontal blanks space and tab. -/
def iswblank (c : Nat) : Bool := c == 32 || c == 9

/-- Modelled from the spec: C `iswspace`, the whitespace characters space, tab, line
feed, vertical tab, form feed and carriage return. -/
def iswspace (c : Nat) : Bool := c == 32 || (decide (9 ≤ c) && decide (c ≤ 13))

/-- Modelled from the spec: C `iswalnum`, the letters and digits. -/
def iswalnum (c : Nat) : Bool :=
  iswdigit c || (decide (65 ≤ c) && decide (c ≤ 90)) || (decide (97 ≤ c) && decide (c ≤ 122))

/-- Modelled from the spec: C `isalnum`, the letters and digits. The C call is undefined
for an argument above 255; such an argument is taken as unclassified. -/
def isalnum (c : Nat) : Bool := iswalnum c

/-- Modelled from the spec: C `isxdigit`, the hexadecimal digits `0-9`, `A-F`, `a-f`. The
C call is undefined for an argument above 255; such an argument is taken as
unclassified. -/
def isxdigit (c : Nat) : Bool :=
  iswdigit c || (decide (65 ≤ c) && decide (c ≤ 70)) || (decide (97 ≤ c) && decide (c ≤ 102))

/-- Conversion of the `int32_t` lookahead to the C type `char` of a parameter or local
variable: the low eight bits are kept. Where `char` is signed the values 128 to 255
stand for negative numbers; the scanner only compares a `char` with ASCII constants or
hands it to `iswalnum`, and both treat the two readings alike. -/
def to_char (c : Nat) : Nat := c % 256

/-! ## Character helpers of the scanner -/

/-- Source `is_ident_char(char chr)`, applied to the lookahead. -/
def is_ident_char (c : Nat) : Bool :=
  let chr := to_char c
  iswalnum chr || chr == 95

/-- Source `is_boz_sentinel(char chr)`, applied to the lookahead: `B b O o Z z`. -/
def is_boz_sentinel (c : Nat) : Bool :=
  let chr := to_char c
  chr == 66 || chr == 98 || chr == 79 || chr == 111 || chr == 90 || chr == 122

/-- Source `is_exp_sentinel(char chr)`, applied to the lookahead: `D d E e`. -/
def is_exp_sentinel (c : Nat) : Bool :=
  let chr := to_char c
  chr == 68 || chr == 100 || chr == 69 || chr == 101

/-- Source `is_comment_character`. -/
def is_comment_character (lexer : TSLexer) : Bool :=
  let character_in_first_column :=
    get_column lexer == 0
      && (lexer.lookahead == 99 || lexer.lookahead == 67 || lexer.lookahead == 42)
  character_in_first_column || lexer.lookahead == 33

/-! ## Loops -/

/-- The loop `while (p(lexer->lookahead)) { advance or skip }`. Every round consumes one
character and every class `p` of the scanner rejects the end-of-input lookahead `0`, so
`lexer.input.length` rounds always suffice (`while_advance_exit`). -/
def while_advance_loop (p : Nat → Bool) (skip : Bool) : Nat → TSLexer → TSLexer
  | 0, lexer => lexer
  | fuel + 1, lexer =>
    if p lexer.lookahead then while_advance_loop p skip fuel (lexer.advance skip) else lexer

/-- The loop `while (p(lexer->lookahead)) { advance or skip }` run to its exit. -/
def while_advance (p : Nat → Bool) (skip : Bool) (lexer : TSLexer) : TSLexer :=
  while_advance_loop p skip lexer.input.length lexer

/-! ## Sub-scanners -/

/-- Source `scan_int`. -/
def scan_int (lexer : TSLexer) : Bool × TSLexer :=
  if !iswdigit lexer.lookahead then (false, lexer)
  else
    -- consume digits
    let lexer := while_advance iswdigit false lexer
    (true, lexer.mark_end)

/-- The block "get size qualifer" that ends `scan_number` once digits were found; it
returns `digits`, which is `true` there. -/
def scan_number_size_qualifier (lexer : TSLexer) : Bool × TSLexer :=
  if lexer.lookahead == 95 then
    let lexer := advance lexer
    if !isalnum lexer.lookahead then (true, lexer) -- valid number token with junk after it
    else
      let lexer := while_advance is_ident_char false lexer
      (true, lexer.mark_end)
  else (true, lexer)

/-- The block `if (lexer->lookahead == '.')` of `scan_number`; `digits` tells whether
the leading digit run was found. -/
def scan_number_decimal (digits : Bool) (lexer : TSLexer) : TSLexer :=
  if lexer.lookahead == 46 then
    let lexer := advance lexer
    let lexer := while_advance iswblank true lexer
    -- exclude decimal if followed by any letter other than d/D and e/E
    let lexer := if digits && !iswalnum lexer.lookahead then lexer.mark_end else lexer
    { lexer with result_symbol := FLOAT_LITERAL }
  else lexer

/-- The block `if (digits)` of `scan_number` up to the final `return digits`, with
`digits` true: the exponent, then the size qualifier. -/
def scan_number_exponent (lexer : TSLexer) : Bool × TSLexer :=
  -- process exp notation
  if is_exp_sentinel lexer.lookahead then
    let lexer := advance lexer
    let lexer :=
      if lexer.lookahead == 43 || lexer.lookahead == 45 then advance lexer else lexer
    let (exp_digits, lexer) := scan_int lexer
    if !exp_digits then (true, lexer) -- valid number token with junk after it
    else scan_number_size_qualifier { lexer.mark_end with result_symbol := FLOAT_LITERAL }
  else scan_number_size_qualifier lexer

/-- Source `scan_number`: a number of the forms 1XXX, 1.0XXX, 0.1XXX, 1.XDX, etc. -/
def scan_number (lexer : TSLexer) : Bool × TSLexer :=
  let lexer := { lexer with result_symbol := INTEGER_LITERAL }
  let (digits, lexer) := scan_int lexer
  let lexer := scan_number_decimal digits lexer
  -- if there are no leading digit it is a nonmatch
  let (digits2, lexer) := scan_int lexer
  let digits := digits2 || digits
  if digits then scan_number_exponent lexer else (false, lexer)

/-- The block `if (lexer->lookahead == '\'' || lexer->lookahead == '"')` of `scan_boz`
with the `return false` after it; `boz_prefix` tells whether a leading sentinel was
consumed. -/
def scan_boz_quoted ( boz_prefix : Bool) (lexer : TSLexer) : Bool × TSLexer :=
  if lexer.lookahead == 39 || lexer.lookahead == 34 then
    let quote := to_char lexer.lookahead
    let lexer := advance lexer
    if !isxdigit lexer.lookahead then (false, lexer)
    else
      let lexer := while_advance isxdigit false lexer -- store all hex digits
      if lexer.lookahead != quote then (false, lexer)
      else
        let lexer := advance lexer -- store enclosing quote
        if ! boz_prefix && !is_boz_sentinel lexer.lookahead then
          (false, lexer) -- no boz suffix or prefix provided
        else (true, lexer.mark_end)
  else (false, lexer)

/-- Source `scan_boz`. -/
def scan_boz (lexer : TSLexer) : Bool × TSLexer :=
  let lexer := { lexer with result_symbol := BOZ_LITERAL }
  if is_boz_sentinel lexer.lookahead then scan_boz_quoted true (advance lexer)
  else scan_boz_quoted false lexer

/-- Source `scan_continuation`. -/
def scan_continuation (lexer : TSLexer) : Bool × TSLexer :=
  if get_column lexer == 5 && !iswblank lexer.lookahead then
    let lexer := skip lexer
    (true, { lexer with result_symbol := LINE_CONTINUATION })
  else (false, lexer)

/-- The end of `scan_end_of_statement`, after the line ending or at a comment character:
eat all whitespace including newlines, then check for a continuation marker. -/
def scan_end_of_statement_rest (lexer : TSLexer) : Bool × TSLexer :=
  let lexer := while_advance iswspace true lexer
  let (cont, lexer) := scan_continuation lexer
  if cont then (true, lexer)
  else (true, { lexer with result_symbol := END_OF_STATEMENT })

/-- Source `scan_end_of_statement`. -/
def scan_end_of_statement (lexer : TSLexer) : Bool × TSLexer :=
  -- Semicolons and EOF always end the statement
  if lexer.lookahead == 59 || lexer.eof then
    let lexer := skip lexer
    (true, { lexer with result_symbol := END_OF_STATEMENT })
  else if lexer.lookahead == 13 then
    let lexer := skip lexer
    let lexer := if lexer.lookahead == 10 then skip lexer else lexer
    scan_end_of_statement_rest lexer
  else if lexer.lookahead == 10 then scan_end_of_statement_rest (skip lexer)
  else if !is_comment_character lexer then
    (false, lexer) -- not a newline and not a comment, so not an end-of-statement
  else scan_end_of_statement_rest lexer

/-- The loop `while (!lexer->eof(lexer))` of `scan_string_literal`. Every round that
does not return consumes a character, so `lexer.input.length` rounds reach the end of
input. -/
def scan_string_literal_loop (opening_quote : Nat) : Nat → TSLexer → Bool × TSLexer
  | 0, lexer => (false, lexer)
  | fuel + 1, lexer =>
    if lexer.eof then (false, lexer)
    else
      let lexer :=
        if lexer.lookahead == 10 then
          let lexer := while_advance iswspace false lexer
          -- We just eat any continuation here
          let lexer := (scan_continuation lexer).2
          { lexer with result_symbol := STRING_LITERAL }
        else lexer
      if lexer.lookahead == opening_quote then
        let lexer := advance lexer
        if lexer.lookahead != opening_quote then (true, lexer)
        else scan_string_literal_loop opening_quote fuel (advance lexer)
      else scan_string_literal_loop opening_quote fuel (advance lexer)

/-- Source `scan_string_literal`. -/
def scan_string_literal (lexer : TSLexer) : Bool × TSLexer :=
  let opening_quote := to_char lexer.lookahead
  if opening_quote != 34 && opening_quote != 39 then (false, lexer)
  else
    let lexer := advance lexer
    let lexer := { lexer with result_symbol := STRING_LITERAL }
    scan_string_literal_loop opening_quote lexer.input.length lexer

/-- Source `scan_comment`. -/
def scan_comment (lexer : TSLexer) : Bool × TSLexer :=
  if !is_comment_character lexer then (false, lexer)
  else
    let lexer := { lexer with result_symbol := COMMENT_CHARACTER }
    (true, advance lexer)

/-- Source `scan`: the dispatcher; `valid_symbols` is the set of requested kinds. -/
def scan (lexer : TSLexer) (valid_symbols : TokenType → Bool) : Bool × TSLexer :=
  -- Consume any leading whitespace except newlines
  let lexer := while_advance iswblank true lexer
  -- Close the current statement if we can
  let (ret, lexer) :=
    if valid_symbols END_OF_STATEMENT then scan_end_of_statement lexer else (false, lexer)
  if ret then (true, lexer)
  else
    let lexer := while_advance iswspace true lexer
    let (ret, lexer) := scan_comment lexer
    if ret then (true, lexer)
    else
      let (ret, lexer) := scan_continuation lexer
      if ret then (true, lexer)
      else
        let (ret, lexer) :=
          if valid_symbols STRING_LITERAL then scan_string_literal lexer else (false, lexer)
        if ret then (true, lexer)
        else if valid_symbols INTEGER_LITERAL || valid_symbols FLOAT_LITERAL
            || valid_symbols BOZ_LITERAL then
          let (ret, lexer) := scan_number lexer
          if ret then (true, lexer)
          else
            let (ret, lexer) := scan_boz lexer
            if ret then (true, lexer) else (false, lexer)
        else (false, lexer)


/-! ## Words of the specification -/

/-- The column after the characters `xs` were consumed from column `col`: a line feed
starts a new line at column 0. -/
def column_after (col : Nat) : List Char → Nat
  | [] => col
  | c :: cs => column_after (if c.toNat = 10 then 0 else col + 1) cs

/-- The line endings of the resolver: CR LF, bare CR and bare LF. -/
def is_line_ending (le : List Char) : Bool :=
  le == [Char.ofNat 13, Char.ofNat 10] || le == [Char.ofNat 13] || le == [Char.ofNat 10]

/-- A content of a string literal with delimiter `q` (a code point): it holds no line
feed, and every occurrence of `q` in it is written as a doubled pair `q q`. -/
def is_doubled_content (q : Nat) : List Char → Bool
  | [] => true
  | [c] => c.toNat != q && c.toNat != 10
  | c :: c2 :: cs =>
    if c.toNat = q then c2.toNat == q && is_doubled_content q cs
    else c.toNat != 10 && is_doubled_content q (c2 :: cs)

/-- The texts on which a number can begin: a decimal digit, or `.` followed by zero or
more horizontal blanks and then a decimal digit. -/
def starts_number : List Char → Bool
  | [] => false
  | c :: cs =>
    iswdigit c.toNat
      || (c.toNat == 46 && iswdigit (peek (cs.dropWhile (fun x => iswblank x.toNat))))

/-- The sentinel letters of a BOZ literal: `B b O o Z z`. -/
def is_sentinel_letter (c : Nat) : Bool :=
  c == 66 || c == 98 || c == 79 || c == 111 || c == 90 || c == 122

/-- The quoted part of a BOZ literal: a quote `q` (apostrophe or double quote), a
non-empty longest run of hexadecimal digits, the same quote `q` and, when `need_suffix`
holds, a sentinel right after the closing quote. The class of the sentinels is
`sentinel`. -/
def boz_quoted_shape (sentinel : Nat → Bool) (need_suffix : Bool) : List Char → Bool
  | [] => false
  | q :: cs =>
    (q.toNat == 39 || q.toNat == 34)
      && isxdigit (peek cs)
      && peek (cs.dropWhile (fun c => isxdigit c.toNat)) == q.toNat
      && (!need_suffix
          || sentinel (peek (cs.dropWhile (fun c => isxdigit c.toNat)).tail))

/-- The shape of a BOZ literal: an optional sentinel letter, then the quoted part, with a
sentinel letter after the closing quote when there was none in front. -/
def boz_shape : List Char → Bool
  | [] => false
  | c :: cs =>
    if is_sentinel_letter c.toNat then boz_quoted_shape is_sentinel_letter false cs
    else boz_quoted_shape is_sentinel_letter true (c :: cs)

/-! ## Lemmas on the cursor and on the loops -/

@[simp] theorem peek_nil : peek [] = 0 := rfl

@[simp] theorem peek_cons (c : Char) (cs : List Char) : peek (c :: cs) = c.toNat := rfl

@[simp] theorem lookahead_mk (i : List Char) (p c s : Nat) (e : Option Nat) (k : TokenType) :
    TSLexer.lookahead ⟨i, p, c, s, e, k⟩ = peek i := rfl

@[simp] theorem advance_mk_cons (x : Char) (i : List Char) (p c s : Nat) (e : Option Nat)
    (k : TokenType) (b : Bool) :
    TSLexer.advance ⟨x :: i, p, c, s, e, k⟩ b
      = ⟨i, p + 1, if x.toNat = 10 then 0 else c + 1, if b then p + 1 else s, e, k⟩ := rfl

@[simp] theorem advance_mk_nil (p c s : Nat) (e : Option Nat) (k : TokenType) (b : Bool) :
    TSLexer.advance ⟨[], p, c, s, e, k⟩ b = ⟨[], p, c, s, e, k⟩ := rfl

@[simp] theorem mark_end_mk (i : List Char) (p c s : Nat) (e : Option Nat) (k : TokenType) :
    TSLexer.mark_end ⟨i, p, c, s, e, k⟩ = ⟨i, p, c, s, some p, k⟩ := rfl

theorem column_after_append (col : Nat) (xs ys : List Char) :
    column_after col (xs ++ ys) = column_after (column_after col xs) ys := by
  induction xs generalizing col with
  | nil => rfl
  | cons x xs ih => simp [column_after, ih]

/-- Characters other than the line feed move the column one to the right each. -/
theorem column_after_of_no_newline (col : Nat) (xs : List Char)
    (h : ∀ c ∈ xs, c.toNat ≠ 10) : column_after col xs = col + xs.length := by
  induction xs generalizing col with
  | nil => rfl
  | cons x xs ih =>
    have hx : x.toNat ≠ 10 := h x (List.mem_cons_self _ _)
    have hxs : ∀ c ∈ xs, c.toNat ≠ 10 := fun c hc => h c (List.mem_cons_of_mem _ hc)
    simp [column_after, hx, ih _ hxs]
    omega

/-- The loop consumes a run `xs` of characters of the class `p` that is followed by a
character outside the class or by the end of input, and stops there. -/
theorem while_advance_loop_run (p : Nat → Bool) (b : Bool) (rest : List Char)
    (hrest : p (peek rest) = false) (xs : List Char) :
    ∀ (fuel pos col ts : Nat) (te : Option Nat) (k : TokenType),
      (∀ c ∈ xs, p c.toNat = true) → xs.length ≤ fuel →
      while_advance_loop p b fuel ⟨xs ++ rest, pos, col, ts, te, k⟩
        = ⟨rest, pos + xs.length, column_after col xs,
            if b && !xs.isEmpty then pos + xs.length else ts, te, k⟩ := by
  induction xs with
  | nil =>
    intro fuel pos col ts te k _ _
    cases fuel with
    | zero => simp [while_advance_loop, column_after]
    | succ n => simp [while_advance_loop, column_after, hrest]
  | cons x xs ih =>
    intro fuel pos col ts te k hp hlen
    have hx : p x.toNat = true := hp x (List.mem_cons_self _ _)
    have hxs : ∀ c ∈ xs, p c.toNat = true := fun c hc => hp c (List.mem_cons_of_mem _ hc)
    cases fuel with
    | zero => simp at hlen
    | succ n =>
      have hn : xs.length ≤ n := by simpa using hlen
      simp only [while_advance_loop, List.cons_append, lookahead_mk, peek_cons, hx, if_true,
        advance_mk_cons]
      rw [ih n _ _ _ te k hxs hn]
      cases b <;> cases xs <;> simp [column_after, Nat.add_assoc, Nat.add_comm]

/-- The loop `while_advance` on a run `xs` of the class followed by `rest`. -/
theorem while_advance_run (p : Nat → Bool) (b : Bool) (xs rest : List Char)
    (pos col ts : Nat) (te : Option Nat) (k : TokenType)
    (hxs : ∀ c ∈ xs, p c.toNat = true) (hrest : p (peek rest) = false) :
    while_advance p b ⟨xs ++ rest, pos, col, ts, te, k⟩
      = ⟨rest, pos + xs.length, column_after col xs,
          if b && !xs.isEmpty then pos + xs.length else ts, te, k⟩ := by
  unfold while_advance
  exact while_advance_loop_run p b rest hrest xs _ pos col ts te k hxs (by simp)

/-- Nothing is consumed when the lookahead is outside the class. -/
theorem while_advance_none (p : Nat → Bool) (b : Bool) (rest : List Char)
    (pos col ts : Nat) (te : Option Nat) (k : TokenType) (hrest : p (peek rest) = false) :
    while_advance p b ⟨rest, pos, col, ts, te, k⟩ = ⟨rest, pos, col, ts, te, k⟩ := by
  have h := while_advance_run p b [] rest pos col ts te k (by simp) hrest
  simpa [column_after] using h

/-- The fuel of `while_advance` is enough: when the class rejects the end-of-input
lookahead, the loop ends on a lookahead outside the class. -/
theorem while_advance_loop_exit (p : Nat → Bool) (b : Bool) (h0 : p 0 = false) :
    ∀ (fuel : Nat) (l : TSLexer), l.input.length ≤ fuel →
      p (while_advance_loop p b fuel l).lookahead = false := by
  intro fuel
  induction fuel with
  | zero =>
    intro l hl
    have hnil : l.input = [] := List.length_eq_zero.mp (Nat.le_zero.mp hl)
    simp [while_advance_loop, TSLexer.lookahead, hnil, h0]
  | succ n ih =>
    intro l hl
    unfold while_advance_loop
    by_cases hp : p l.lookahead = true
    · rw [if_pos hp]
      apply ih
      obtain ⟨i, ps, c, s, e, k⟩ := l
      cases i with
      | nil => simp
      | cons x xs =>
        simp at hl
        simpa using hl
    · rw [if_neg hp]
      simpa using hp

theorem while_advance_exit (p : Nat → Bool) (b : Bool) (h0 : p 0 = false) (l : TSLexer) :
    p (while_advance p b l).lookahead = false :=
  while_advance_loop_exit p b h0 _ l (Nat.le_refl _)

/-- Every class the scanner loops on rejects the lookahead `0` of the end of input. -/
theorem classes_reject_end_of_input :
    iswdigit 0 = false ∧ iswblank 0 = false ∧ iswspace 0 = false ∧ isxdigit 0 = false
    ∧ is_ident_char 0 = false := by
  decide

/-! ## The digit run -/

theorem iswdigit_ne_newline (c : Nat) (h : iswdigit c = true) : c ≠ 10 := by
  intro hc
  subst hc
  simp [iswdigit] at h

/-- On a non-empty digit run `ds` followed by a non-digit or the end of input, `scan_int`
consumes exactly `ds` and marks the token end after it. -/
theorem scan_int_run (ds rest : List Char) (pos col ts : Nat) (te : Option Nat)
    (k : TokenType) (hne : ds ≠ []) (hds : ∀ c ∈ ds, iswdigit c.toNat = true)
    (hrest : iswdigit (peek rest) = false) :
    scan_int ⟨ds ++ rest, pos, col, ts, te, k⟩
      = (true, ⟨rest, pos + ds.length, col + ds.length, ts, some (pos + ds.length), k⟩) := by
  have hcol : column_after col ds = col + ds.length :=
    column_after_of_no_newline col ds (fun c hc => iswdigit_ne_newline _ (hds c hc))
  have hhead : iswdigit (peek (ds ++ rest)) = true := by
    cases ds with
    | nil => exact absurd rfl hne
    | cons d ds => simpa using hds d (List.mem_cons_self _ _)
  unfold scan_int
  simp only [lookahead_mk, hhead, Bool.not_true, Bool.false_eq_true, if_false]
  rw [while_advance_run iswdigit false ds rest pos col ts te k hds hrest]
  simp [hcol]

/-- Without a digit at the cursor `scan_int` fails and changes nothing. -/
theorem scan_int_none (rest : List Char) (pos col ts : Nat) (te : Option Nat)
    (k : TokenType) (hrest : iswdigit (peek rest) = false) :
    scan_int ⟨rest, pos, col, ts, te, k⟩ = (false, ⟨rest, pos, col, ts, te, k⟩) := by
  simp [scan_int, hrest]

/-! ## The end-of-statement resolver -/

theorem iswblank_of_not_iswspace (c : Nat) (h : iswspace c = false) : iswblank c = false := by
  simp only [iswspace, iswblank, Bool.or_eq_false_iff, Bool.and_eq_false_iff, beq_eq_false_iff_ne,
    decide_eq_false_iff_not] at *
  omega

theorem ne_newline_of_not_iswspace (c : Nat) (h : iswspace c = false) : c ≠ 10 := by
  intro hc
  subst hc
  simp [iswspace] at h

/-- After the line ending: the whitespace `ws` is skipped, then the first character `c`
that is no whitespace is skipped as a continuation marker exactly when it stands at
column 5. -/
theorem scan_end_of_statement_rest_run (ws rest : List Char) (c : Char) (pos col : Nat)
    (k : TokenType) (hws : ∀ x ∈ ws, iswspace x.toNat = true)
    (hc : iswspace c.toNat = false) :
    scan_end_of_statement_rest ⟨ws ++ c :: rest, pos, col, pos, none, k⟩
      = if column_after col ws = 5 then
          (true, ⟨rest, pos + ws.length + 1, 6, pos + ws.length + 1, none, LINE_CONTINUATION⟩)
        else
          (true, ⟨c :: rest, pos + ws.length, column_after col ws, pos + ws.length, none,
            END_OF_STATEMENT⟩) := by
  have hb : iswblank c.toNat = false := iswblank_of_not_iswspace _ hc
  have hn : c.toNat ≠ 10 := ne_newline_of_not_iswspace _ hc
  unfold scan_end_of_statement_rest
  rw [while_advance_run iswspace true ws (c :: rest) pos col pos none k hws (by simpa using hc)]
  have hts : (if (true && !ws.isEmpty) = true then pos + ws.length else pos) = pos + ws.length := by
    cases ws <;> simp
  rw [hts]
  by_cases h5 : column_after col ws = 5
  · simp [scan_continuation, get_column, skip, h5, hb, hn]
  · simp [scan_continuation, get_column, h5]

/-- The resolver at a line ending `le` followed by whitespace `ws` and a first character
`c` that is no whitespace. -/
theorem scan_end_of_statement_line_ending (le ws rest : List Char) (c : Char) (col : Nat)
    (sym : TokenType) (hle : is_line_ending le = true)
    (hws : ∀ x ∈ ws, iswspace x.toNat = true) (hc : iswspace c.toNat = false) :
    scan_end_of_statement (ts_lexer_start (le ++ ws ++ c :: rest) col sym)
      = if column_after col (le ++ ws) = 5 then
          (true, ⟨rest, (le ++ ws).length + 1, 6, (le ++ ws).length + 1, none,
            LINE_CONTINUATION⟩)
        else
          (true, ⟨c :: rest, (le ++ ws).length, column_after col (le ++ ws),
            (le ++ ws).length, none, END_OF_STATEMENT⟩) := by
  have hn : c.toNat ≠ 10 := ne_newline_of_not_iswspace _ hc
  simp only [is_line_ending, Bool.or_eq_true, beq_iff_eq] at hle
  rcases hle with (hle | hle) | hle
  · -- CR LF
    subst hle
    have h := scan_end_of_statement_rest_run ws rest c 2 0 sym hws hc
    simp [scan_end_of_statement, ts_lexer_start, skip, TSLexer.eof, column_after, h]
    split <;> simp <;> omega
  · -- bare CR
    subst hle
    cases ws with
    | nil =>
      have h := scan_end_of_statement_rest_run [] rest c 1 (col + 1) sym (by simp) hc
      simp [column_after] at h
      simp [scan_end_of_statement, ts_lexer_start, skip, TSLexer.eof, column_after, h, hn]
    | cons x ws =>
      have hxs : ∀ y ∈ ws, iswspace y.toNat = true :=
        fun y hy => hws y (List.mem_cons_of_mem _ hy)
      by_cases hx : x.toNat = 10
      · have h := scan_end_of_statement_rest_run ws rest c 2 0 sym hxs hc
        simp [scan_end_of_statement, ts_lexer_start, skip, TSLexer.eof, column_after, h, hx]
        split <;> simp <;> omega
      · have h := scan_end_of_statement_rest_run (x :: ws) rest c 1 (col + 1) sym hws hc
        simp [column_after, hx] at h
        simp [scan_end_of_statement, ts_lexer_start, skip, TSLexer.eof, column_after, h, hx]
        split <;> simp <;> omega
  · -- bare LF
    subst hle
    have h := scan_end_of_statement_rest_run ws rest c 1 0 sym hws hc
    simp [scan_end_of_statement, ts_lexer_start, skip, TSLexer.eof, column_after, h]
    split <;> simp <;> omega

/-- The resolver when a character follows: at a line ending (CR LF, bare CR or bare LF)
followed by whitespace `ws` and then a first character `c` that is no whitespace, the
resolver succeeds; its
result is `LINE_CONTINUATION` exactly when `c` stands at column 5, and then `c` is
consumed and excluded; at any other column the result is `END_OF_STATEMENT` and `c` is
left as the lookahead; in both cases the token starts at the cursor, so every consumed
character is excluded from it. -/
theorem scan_end_of_statement_after_line_ending (le ws rest : List Char) (c : Char)
    (col : Nat) (sym : TokenType) (hle : is_line_ending le = true)
    (hws : ∀ x ∈ ws, iswspace x.toNat = true) (hc : iswspace c.toNat = false) :
    (scan_end_of_statement (ts_lexer_start (le ++ ws ++ c :: rest) col sym)).1 = true
    ∧ ((scan_end_of_statement (ts_lexer_start (le ++ ws ++ c :: rest) col sym)).2.result_symbol
          = LINE_CONTINUATION ↔ column_after col (le ++ ws) = 5)
    ∧ (column_after col (le ++ ws) = 5 →
        (scan_end_of_statement (ts_lexer_start (le ++ ws ++ c :: rest) col sym)).2.input = rest
        ∧ (scan_end_of_statement (ts_lexer_start (le ++ ws ++ c :: rest) col sym)).2.pos
            = (le ++ ws).length + 1)
    ∧ (column_after col (le ++ ws) ≠ 5 →
        (scan_end_of_statement (ts_lexer_start (le ++ ws ++ c :: rest) col sym)).2.result_symbol
          = END_OF_STATEMENT
        ∧ (scan_end_of_statement (ts_lexer_start (le ++ ws ++ c :: rest) col sym)).2.input
            = c :: rest
        ∧ (scan_end_of_statement (ts_lexer_start (le ++ ws ++ c :: rest) col sym)).2.pos
            = (le ++ ws).length)
    ∧ (scan_end_of_statement (ts_lexer_start (le ++ ws ++ c :: rest) col sym)).2.token_start
        = (scan_end_of_statement (ts_lexer_start (le ++ ws ++ c :: rest) col sym)).2.pos
    ∧ (scan_end_of_statement (ts_lexer_start (le ++ ws ++ c :: rest) col sym)).2.token_length
        = 0 := by
  rw [scan_end_of_statement_line_ending le ws rest c col sym hle hws hc]
  by_cases h5 : column_after col (le ++ ws) = 5
  · simp [h5, TSLexer.token_length, TSLexer.token_stop]
  · simp [h5, TSLexer.token_length, TSLexer.token_stop]

/-- An instance of the theorem before: a line feed, five blanks and `&` at column 5 give
a line continuation. -/
theorem scan_end_of_statement_after_line_ending_witness :
    (scan_end_of_statement (ts_lexer_start "\n     &def".toList 0 INTEGER_LITERAL)).2.result_symbol
      = LINE_CONTINUATION :=
  (scan_end_of_statement_after_line_ending [Char.ofNat 10] "     ".toList "def".toList
    (Char.ofNat 38) 0 INTEGER_LITERAL (by decide) (by decide) (by decide)).2.1.mpr (by decide)

/-- C2: a line feed and five blanks followed by the end of input hold no character that
is not whitespace, so none stands at column 5, and yet the resolver reports
`LINE_CONTINUATION`, not `END_OF_STATEMENT`: `scan_continuation` tests the column and
the lookahead, which is `0` at the end of input and no blank, but not `eof`. All six
characters are consumed. -/
theorem scan_end_of_statement_eof_at_column_five :
    is_line_ending [Char.ofNat 10] = true
    ∧ (∀ c ∈ "     ".toList, iswspace c.toNat = true)
    ∧ column_after 0 ([Char.ofNat 10] ++ "     ".toList) = 5
    ∧ scan_end_of_statement
          (ts_lexer_start ([Char.ofNat 10] ++ "     ".toList) 0 END_OF_STATEMENT)
        = (true, ⟨[], 6, 5, 6, none, LINE_CONTINUATION⟩) := by
  decide

/-- With four or six blanks before the end of input, where the column is not 5, the
resolver reports `END_OF_STATEMENT`. -/
theorem scan_end_of_statement_eof_at_other_columns :
    scan_end_of_statement (ts_lexer_start "\n    ".toList 0 LINE_CONTINUATION)
      = (true, ⟨[], 5, 4, 5, none, END_OF_STATEMENT⟩)
    ∧ scan_end_of_statement (ts_lexer_start "\n      ".toList 0 LINE_CONTINUATION)
      = (true, ⟨[], 7, 6, 7, none, END_OF_STATEMENT⟩) := by
  decide

/-- After a bare carriage return the cursor does not reset its column: with the cursor
in column 20 at a carriage return, five blanks and `&`, the marker is the sixth
character of the new line but stands at the cursor's column 26, and the resolver reports
`END_OF_STATEMENT` and leaves the marker unconsumed. -/
theorem scan_end_of_statement_bare_carriage_return :
    scan_end_of_statement (ts_lexer_start "\r     &x".toList 20 INTEGER_LITERAL)
      = (true, ⟨"&x".toList, 6, 26, 6, none, END_OF_STATEMENT⟩) := by
  decide

/-! ## Evaluations of the literal scanners -/

/-- C1: on `1.EQ.2` the numeric scanner succeeds with a token that covers only the
character `1`, but the kind it records is `FLOAT_LITERAL`, not `INTEGER_LITERAL`. -/
theorem scan_number_dot_operator_kind (col : Nat) (sym : TokenType) :
    (scan_number (ts_lexer_start "1.EQ.2".toList col sym)).1 = true
    ∧ (scan_number (ts_lexer_start "1.EQ.2".toList col sym)).2.token_start = 0
    ∧ (scan_number (ts_lexer_start "1.EQ.2".toList col sym)).2.token_stop = 1
    ∧ (scan_number (ts_lexer_start "1.EQ.2".toList col sym)).2.result_symbol = FLOAT_LITERAL
    ∧ (scan_number (ts_lexer_start "1.EQ.2".toList col sym)).2.result_symbol
        ≠ INTEGER_LITERAL := by
  have h : scan_number (ts_lexer_start "1.EQ.2".toList col sym)
      = (true, ⟨"Q.2".toList, 3, col + 3, 0, some 1, FLOAT_LITERAL⟩) := by
    simp [scan_number, scan_number_decimal, scan_number_exponent,
      scan_number_size_qualifier, scan_int, ts_lexer_start, advance,
      is_exp_sentinel, to_char, iswdigit, iswblank, iswalnum, while_advance,
      while_advance_loop]
  rw [h]
  simp [TSLexer.token_stop]

/-- C7: on `'1010'B` the BOZ scanner succeeds, but the token it commits covers the six
characters through the closing quote: the trailing sentinel `B` is checked and left
unconsumed. -/
theorem scan_boz_suffix_sentinel_left (col : Nat) (sym : TokenType) :
    scan_boz (ts_lexer_start "'1010'B".toList col sym)
      = (true, ⟨"B".toList, 6, col + 6, 0, some 6, BOZ_LITERAL⟩)
    ∧ (scan_boz (ts_lexer_start "'1010'B".toList col sym)).2.token_length = 6
    ∧ "'1010'B".toList.length = 7 := by
  refine ⟨?_, rfl, rfl⟩
  simp [scan_boz, scan_boz_quoted, ts_lexer_start, advance, is_boz_sentinel, to_char,
    isxdigit, iswdigit,
    while_advance, while_advance_loop]

/-! ## The string-literal scanner -/

/-- The loop of `scan_string_literal` on a content whose delimiters are all doubled,
followed by the closing delimiter `qc`: it returns at the closing delimiter. -/
theorem scan_string_literal_loop_doubled (q : Nat) (qc : Char) (rest : List Char)
    (hqc : qc.toNat = q) (hq10 : q ≠ 10) (hrest : peek rest ≠ q) :
    ∀ (fuel : Nat) (content : List Char) (pos col ts : Nat) (te : Option Nat),
      is_doubled_content q content = true → content.length + 1 ≤ fuel →
      scan_string_literal_loop q fuel ⟨content ++ qc :: rest, pos, col, ts, te, STRING_LITERAL⟩
        = (true, ⟨rest, pos + content.length + 1, col + content.length + 1, ts, te,
            STRING_LITERAL⟩) := by
  intro fuel
  induction fuel with
  | zero => intro content pos col ts te _ hlen; omega
  | succ n ih =>
    intro content pos col ts te hd hlen
    match content, hd, hlen with
    | [], _, _ =>
      simp [scan_string_literal_loop, TSLexer.eof, advance, hqc, hq10, hrest]
    | [c], hd, hlen =>
      simp only [is_doubled_content, Bool.and_eq_true, bne_iff_ne, ne_eq] at hd
      have hn : 1 ≤ n := by simpa using hlen
      have h := ih [] (pos + 1) (col + 1) ts te (by simp [is_doubled_content]) (by simpa using hn)
      simp only [List.nil_append, List.length_nil, Nat.add_zero] at h
      simp [scan_string_literal_loop, TSLexer.eof, advance, hd.1, hd.2, h]
    | c :: c2 :: cs, hd, hlen =>
      by_cases hcq : c.toNat = q
      · simp only [is_doubled_content, hcq, if_true, Bool.and_eq_true, beq_iff_eq] at hd
        have hn : cs.length + 1 ≤ n := by simp at hlen; omega
        have h := ih cs (pos + 1 + 1) (col + 1 + 1) ts te hd.2 hn
        simp [scan_string_literal_loop, TSLexer.eof, advance, hcq, hd.1, hq10, h]
        omega
      · simp only [is_doubled_content, hcq, if_false, Bool.and_eq_true, bne_iff_ne, ne_eq] at hd
        have hn : (c2 :: cs).length + 1 ≤ n := by simp at hlen; simp; omega
        have h := ih (c2 :: cs) (pos + 1) (col + 1) ts te hd.2 hn
        simp only [List.cons_append, List.length_cons] at h
        simp [scan_string_literal_loop, TSLexer.eof, advance, hcq, hd.1, h]
        omega

theorem to_char_quote (q : Nat) (hq : q = 39 ∨ q = 34) : to_char q = q := by
  rcases hq with h | h <;> subst h <;> rfl

/-- C3: for a delimiter `q` (apostrophe or double quote) and a content without line feed
in which every `q` is doubled, the scanner applied to `q content q`, followed by the end
of input or by a character other than `q`, succeeds with kind `STRING_LITERAL`; the
token starts at the opening `q` and stops right after the closing `q`, which is where
the cursor is left. -/
theorem scan_string_literal_closed (q : Char) (content rest : List Char) (col : Nat)
    (sym : TokenType) (hq : q.toNat = 39 ∨ q.toNat = 34)
    (hcontent : is_doubled_content q.toNat content = true) (hrest : peek rest ≠ q.toNat) :
    (scan_string_literal (ts_lexer_start (q :: content ++ q :: rest) col sym)).1 = true
    ∧ (scan_string_literal (ts_lexer_start (q :: content ++ q :: rest) col sym)).2.result_symbol
        = STRING_LITERAL
    ∧ (scan_string_literal (ts_lexer_start (q :: content ++ q :: rest) col sym)).2.token_start
        = 0
    ∧ (scan_string_literal (ts_lexer_start (q :: content ++ q :: rest) col sym)).2.token_stop
        = (q :: content ++ [q]).length
    ∧ (scan_string_literal (ts_lexer_start (q :: content ++ q :: rest) col sym)).2.input
        = rest := by
  have hq10 : q.toNat ≠ 10 := by rcases hq with h | h <;> omega
  have hloop := scan_string_literal_loop_doubled q.toNat q rest rfl hq10 hrest
    (content ++ q :: rest).length content 1 (if q.toNat = 10 then 0 else col + 1) 0 none
    hcontent (by simp)
  have h : scan_string_literal (ts_lexer_start (q :: content ++ q :: rest) col sym)
      = (true, ⟨rest, 1 + content.length + 1,
          (if q.toNat = 10 then 0 else col + 1) + content.length + 1, 0, none,
          STRING_LITERAL⟩) := by
    rw [← hloop]
    rcases hq with h | h <;>
      simp [scan_string_literal, ts_lexer_start, advance, to_char_quote, h]
  rw [h]
  simp [TSLexer.token_stop]
  omega

/-- Witness of C3: the literal with a doubled apostrophe inside, followed by a blank. -/
theorem scan_string_literal_closed_witness :
    (scan_string_literal (ts_lexer_start "'it''s' ".toList 6 INTEGER_LITERAL)).1 = true
    ∧ (scan_string_literal (ts_lexer_start "'it''s' ".toList 6 INTEGER_LITERAL)).2.result_symbol
        = STRING_LITERAL
    ∧ (scan_string_literal (ts_lexer_start "'it''s' ".toList 6 INTEGER_LITERAL)).2.token_start
        = 0
    ∧ (scan_string_literal (ts_lexer_start "'it''s' ".toList 6 INTEGER_LITERAL)).2.token_stop
        = 7
    ∧ (scan_string_literal (ts_lexer_start "'it''s' ".toList 6 INTEGER_LITERAL)).2.input
        = " ".toList :=
  scan_string_literal_closed (Char.ofNat 39) "it''s".toList " ".toList 6 INTEGER_LITERAL
    (by decide) (by decide) (by decide)

/-! ### Unterminated literals -/

theorem advance_input_tail (l : TSLexer) (b : Bool) : (l.advance b).input = l.input.tail := by
  obtain ⟨i, p, c, s, e, k⟩ := l
  cases i <;> rfl

theorem advance_input_suffix (l : TSLexer) (b : Bool) : (l.advance b).input <:+ l.input := by
  obtain ⟨i, p, c, s, e, k⟩ := l
  cases i with
  | nil => simp
  | cons x xs => simp

theorem while_advance_loop_input_suffix (p : Nat → Bool) (b : Bool) :
    ∀ (fuel : Nat) (l : TSLexer), (while_advance_loop p b fuel l).input <:+ l.input := by
  intro fuel
  induction fuel with
  | zero => intro l; simp [while_advance_loop]
  | succ n ih =>
    intro l
    unfold while_advance_loop
    split
    · exact (ih _).trans (advance_input_suffix l b)
    · exact List.suffix_refl _

theorem scan_continuation_input_suffix (l : TSLexer) :
    (scan_continuation l).2.input <:+ l.input := by
  unfold scan_continuation
  split
  · exact advance_input_suffix l true
  · exact List.suffix_refl _

/-- Without the delimiter in the text, the loop of `scan_string_literal` reports no
match, whatever the fuel. -/
theorem scan_string_literal_loop_unterminated (q : Nat) (hq0 : q ≠ 0) :
    ∀ (fuel : Nat) (l : TSLexer), (∀ c ∈ l.input, c.toNat ≠ q) →
      (scan_string_literal_loop q fuel l).1 = false := by
  intro fuel
  induction fuel with
  | zero => intro l _; rfl
  | succ n ih =>
    intro l hl
    have hpeek : ∀ m : TSLexer, m.input <:+ l.input → (m.lookahead == q) = false := by
      intro m hm
      obtain ⟨i, p, c, s, e, k⟩ := m
      cases i with
      | nil => simpa using fun h => hq0 h.symm
      | cons x xs =>
        have hx : x ∈ l.input := hm.subset (List.mem_cons_self _ _)
        simpa using hl x hx
    have hrec : ∀ m : TSLexer, m.input <:+ l.input →
        (scan_string_literal_loop q n (advance m)).1 = false := by
      intro m hm
      apply ih
      intro c hc
      exact hl c (hm.subset ((advance_input_suffix m false).subset hc))
    unfold scan_string_literal_loop
    by_cases heof : l.eof = true
    · simp [heof]
    · simp only [heof, Bool.false_eq_true, if_false]
      by_cases hnl : (l.lookahead == 10) = true
      · have hsuf : (scan_continuation (while_advance iswspace false l)).2.input <:+ l.input :=
          (scan_continuation_input_suffix _).trans (while_advance_loop_input_suffix _ _ _ l)
        simp only [hnl, if_true]
        rw [hpeek { (scan_continuation (while_advance iswspace false l)).2 with
          result_symbol := STRING_LITERAL } hsuf]
        simpa using hrec { (scan_continuation (while_advance iswspace false l)).2 with
          result_symbol := STRING_LITERAL } hsuf
      · simp only [hnl, Bool.false_eq_true, if_false]
        rw [hpeek l (List.suffix_refl _)]
        simpa using hrec l (List.suffix_refl _)

theorem advance_input_length (l : TSLexer) (b : Bool) :
    (l.advance b).input.length = l.input.length - 1 := by
  rw [advance_input_tail]
  simp

/-- The fuel of `scan_string_literal` is enough: with at least `lexer.input.length`
rounds the loop reports no match only at the end of input, where the loop of the source
ends too. -/
theorem scan_string_literal_loop_exit (q : Nat) :
    ∀ (fuel : Nat) (l : TSLexer), l.input.length ≤ fuel →
      (scan_string_literal_loop q fuel l).1 = false →
      (scan_string_literal_loop q fuel l).2.eof = true := by
  intro fuel
  induction fuel with
  | zero =>
    intro l hl _
    have hnil : l.input = [] := List.length_eq_zero.mp (Nat.le_zero.mp hl)
    simp [scan_string_literal_loop, TSLexer.eof, hnil]
  | succ n ih =>
    intro l hl
    have hstep : ∀ m : TSLexer, m.input.length ≤ n + 1 →
        ((advance m).input.length ≤ n ∨ m.input = [])
        ∧ (advance (advance m)).input.length ≤ n := by
      intro m hm
      simp only [advance, advance_input_length]
      refine ⟨?_, by omega⟩
      cases hmi : m.input with
      | nil => exact Or.inr rfl
      | cons x xs => rw [hmi] at hm; simp at hm; left; simp; omega
    have hgo : ∀ m : TSLexer, m.input.length ≤ n + 1 →
        (if (m.lookahead == q) = true then
            if ((advance m).lookahead != q) = true then (true, advance m)
            else scan_string_literal_loop q n (advance (advance m))
          else scan_string_literal_loop q n (advance m)).1 = false →
        (if (m.lookahead == q) = true then
            if ((advance m).lookahead != q) = true then (true, advance m)
            else scan_string_literal_loop q n (advance (advance m))
          else scan_string_literal_loop q n (advance m)).2.eof = true := by
      intro m hm
      obtain ⟨h1, h2⟩ := hstep m hm
      split
      · split
        · intro h; cases h
        · exact ih _ h2
      · rcases h1 with h1 | h1
        · exact ih _ h1
        · apply ih
          simp [advance, advance_input_tail, h1]
    unfold scan_string_literal_loop
    by_cases heof : l.eof = true
    · simp [heof]
    · simp only [heof, Bool.false_eq_true, if_false]
      by_cases hnl : (l.lookahead == 10) = true
      · have hsuf : (scan_continuation (while_advance iswspace false l)).2.input <:+ l.input :=
          (scan_continuation_input_suffix _).trans (while_advance_loop_input_suffix _ _ _ l)
        simp only [hnl, if_true]
        exact hgo { (scan_continuation (while_advance iswspace false l)).2 with
          result_symbol := STRING_LITERAL } (Nat.le_trans hsuf.length_le hl)
      · simp only [hnl, Bool.false_eq_true, if_false]
        exact hgo l hl

/-- C5: on a text that starts with a quote `q` (apostrophe or double quote) and holds no
further `q` up to the end of input, the scanner reports no match. -/
theorem scan_string_literal_unterminated (q : Char) (rest : List Char) (col : Nat)
    (sym : TokenType) (hq : q.toNat = 39 ∨ q.toNat = 34)
    (hno : ∀ c ∈ rest, c.toNat ≠ q.toNat) :
    (scan_string_literal (ts_lexer_start (q :: rest) col sym)).1 = false := by
  have hq0 : q.toNat ≠ 0 := by rcases hq with h | h <;> omega
  have h := scan_string_literal_loop_unterminated q.toNat hq0 rest.length
    ⟨rest, 1, if q.toNat = 10 then 0 else col + 1, 0, none, STRING_LITERAL⟩ hno
  rw [← h]
  rcases hq with h | h <;>
    simp [scan_string_literal, ts_lexer_start, advance, to_char_quote, h]

/-- Witness of C5: the text `'abc` followed by the end of input. -/
theorem scan_string_literal_unterminated_witness :
    (scan_string_literal (ts_lexer_start "'abc".toList 6 INTEGER_LITERAL)).1 = false :=
  scan_string_literal_unterminated (Char.ofNat 39) "abc".toList 6 INTEGER_LITERAL
    (by decide) (by decide)

/-! ### Literals that span a continuation line -/

/-- A text without the delimiter and without line feed is a content with all delimiters
doubled. -/
theorem is_doubled_content_of_plain (q : Nat) :
    ∀ (xs : List Char), (∀ x ∈ xs, x.toNat ≠ q ∧ x.toNat ≠ 10) →
      is_doubled_content q xs = true := by
  intro xs
  induction xs with
  | nil => intro _; rfl
  | cons x xs ih =>
    intro h
    have hx := h x (List.mem_cons_self _ _)
    have hxs := ih (fun y hy => h y (List.mem_cons_of_mem _ hy))
    cases xs with
    | nil => simp [is_doubled_content, hx.1, hx.2]
    | cons y ys => simp [is_doubled_content, hx.1, hx.2, hxs]

/-- One round of the loop of `scan_string_literal` on a character that is neither the
delimiter nor a line feed. -/
theorem scan_string_literal_loop_step (q : Nat) (x : Char) (tail : List Char)
    (n pos col ts : Nat) (te : Option Nat) (k : TokenType)
    (hq : x.toNat ≠ q) (hn : x.toNat ≠ 10) :
    scan_string_literal_loop q (n + 1) ⟨x :: tail, pos, col, ts, te, k⟩
      = scan_string_literal_loop q n ⟨tail, pos + 1, col + 1, ts, te, k⟩ := by
  simp [scan_string_literal_loop, TSLexer.eof, advance, hq, hn]

/-- The loop of `scan_string_literal` consumes a plain text (no delimiter, no line feed)
one character a round. -/
theorem scan_string_literal_loop_plain (q : Nat) (tail : List Char) (fuel : Nat) :
    ∀ (xs : List Char) (pos col ts : Nat) (te : Option Nat),
      (∀ x ∈ xs, x.toNat ≠ q ∧ x.toNat ≠ 10) →
      scan_string_literal_loop q (fuel + xs.length) ⟨xs ++ tail, pos, col, ts, te, STRING_LITERAL⟩
        = scan_string_literal_loop q fuel
            ⟨tail, pos + xs.length, col + xs.length, ts, te, STRING_LITERAL⟩ := by
  intro xs
  induction xs with
  | nil => intro pos col ts te _; simp
  | cons x xs ih =>
    intro pos col ts te h
    have hx := h x (List.mem_cons_self _ _)
    have hxs := ih (pos + 1) (col + 1) ts te (fun y hy => h y (List.mem_cons_of_mem _ hy))
    have hf : fuel + (x :: xs).length = (fuel + xs.length) + 1 := by simp; omega
    rw [hf, List.cons_append, scan_string_literal_loop_step q x _ _ pos col ts te _ hx.1 hx.2,
      hxs]
    simp [Nat.add_assoc, Nat.add_comm 1]

/-- The round of the loop of `scan_string_literal` that begins at a line feed: the line
feed and the whitespace `w` are consumed into the token, the character `c` at column 5 is
skipped as a continuation marker, and the plain text `s2` up to the closing delimiter
`qc` is consumed; the token starts after `c`. -/
theorem scan_string_literal_loop_newline (q : Nat) (qc c : Char) (w s2 rest : List Char)
    (n pos col ts : Nat) (te : Option Nat)
    (hqc : qc.toNat = q) (hq10 : q ≠ 10) (hw : ∀ x ∈ w, iswspace x.toNat = true)
    (hcol : column_after 0 w = 5) (hc : iswspace c.toNat = false)
    (hs2 : ∀ x ∈ s2, x.toNat ≠ q ∧ x.toNat ≠ 10) (hrest : peek rest ≠ q)
    (hn : s2.length ≤ n) :
    scan_string_literal_loop q (n + 1)
        ⟨(Char.ofNat 10 :: w) ++ c :: (s2 ++ qc :: rest), pos, col, ts, te, STRING_LITERAL⟩
      = (true, ⟨rest, pos + w.length + s2.length + 3, 6 + s2.length + 1,
          pos + w.length + 2, te, STRING_LITERAL⟩) := by
  have hb : iswblank c.toNat = false := iswblank_of_not_iswspace _ hc
  have hc10 : c.toNat ≠ 10 := ne_newline_of_not_iswspace _ hc
  have hlfw : ∀ x ∈ Char.ofNat 10 :: w, iswspace x.toNat = true := by
    intro x hx
    rcases List.mem_cons.mp hx with h | h
    · subst h; decide
    · exact hw x h
  have hrun := while_advance_run iswspace false (Char.ofNat 10 :: w) (c :: (s2 ++ qc :: rest))
    pos col ts te STRING_LITERAL hlfw (by simpa using hc)
  have hcol2 : column_after col (Char.ofNat 10 :: w) = 5 := by
    simpa [column_after] using hcol
  rw [hcol2] at hrun
  simp only [Bool.false_and, Bool.false_eq_true, if_false] at hrun
  have hlook : TSLexer.lookahead
      ⟨(Char.ofNat 10 :: w) ++ c :: (s2 ++ qc :: rest), pos, col, ts, te, STRING_LITERAL⟩ = 10 := by
    simp
  unfold scan_string_literal_loop
  simp only [TSLexer.eof, List.cons_append, List.isEmpty_cons, Bool.false_eq_true, if_false]
  simp only [List.cons_append] at hrun hlook
  rw [hlook, hrun]
  simp only [beq_self_eq_true, if_true, scan_continuation, get_column, lookahead_mk, peek_cons,
    hb, Bool.not_false, Bool.and_true, skip, advance_mk_cons, if_neg hc10]
  cases s2 with
  | nil =>
    simp [advance, hqc, hq10, hrest]
    omega
  | cons x s2 =>
    have hx := hs2 x (List.mem_cons_self _ _)
    have hd : is_doubled_content q s2 = true :=
      is_doubled_content_of_plain q s2 (fun y hy => hs2 y (List.mem_cons_of_mem _ hy))
    have hlen : s2.length + 1 ≤ n := by simpa using hn
    have hloop := scan_string_literal_loop_doubled q qc rest hqc hq10 hrest n s2
      (pos + (w.length + 1) + 1 + 1) (6 + 1) (pos + (w.length + 1) + 1) te hd hlen
    simp [advance, hx.1, hx.2, hloop]
    omega

/-- The scanner on a literal `q s1 LF w c s2 q` whose second line has `c` at column 5. -/
theorem scan_string_literal_continuation_run (q c : Char) (s1 w s2 rest : List Char)
    (col : Nat) (sym : TokenType) (hq : q.toNat = 39 ∨ q.toNat = 34)
    (hs1 : ∀ x ∈ s1, x.toNat ≠ q.toNat ∧ x.toNat ≠ 10)
    (hw : ∀ x ∈ w, iswspace x.toNat = true)
    (hcol : column_after col (q :: s1 ++ Char.ofNat 10 :: w) = 5)
    (hc : iswspace c.toNat = false)
    (hs2 : ∀ x ∈ s2, x.toNat ≠ q.toNat ∧ x.toNat ≠ 10)
    (hrest : peek rest ≠ q.toNat) :
    scan_string_literal
        (ts_lexer_start (q :: s1 ++ Char.ofNat 10 :: w ++ c :: s2 ++ q :: rest) col sym)
      = (true, ⟨rest, s1.length + w.length + s2.length + 4, 6 + s2.length + 1,
          s1.length + w.length + 3, none, STRING_LITERAL⟩) := by
  have hq10 : q.toNat ≠ 10 := by rcases hq with h | h <;> omega
  have hcol0 : column_after 0 w = 5 := by
    rw [column_after_append] at hcol
    simpa [column_after] using hcol
  have hnl := scan_string_literal_loop_newline q.toNat q c w s2 rest
    (w.length + 1 + s2.length + 1 + rest.length) (1 + s1.length) (col + 1 + s1.length) 0 none
    rfl hq10 hw hcol0 hc hs2 hrest (by omega)
  have hplain := scan_string_literal_loop_plain q.toNat
    ((Char.ofNat 10 :: w) ++ c :: (s2 ++ q :: rest))
    (w.length + 1 + s2.length + 1 + rest.length + 1) s1 1 (col + 1) 0 none hs1
  rw [hnl] at hplain
  have hfuel : (s1 ++ ((Char.ofNat 10 :: w) ++ c :: (s2 ++ q :: rest))).length
      = w.length + 1 + s2.length + 1 + rest.length + 1 + s1.length := by
    simp
    omega
  have h : scan_string_literal
        (ts_lexer_start (q :: s1 ++ Char.ofNat 10 :: w ++ c :: s2 ++ q :: rest) col sym)
      = scan_string_literal_loop q.toNat
          (s1 ++ ((Char.ofNat 10 :: w) ++ c :: (s2 ++ q :: rest))).length
          ⟨s1 ++ ((Char.ofNat 10 :: w) ++ c :: (s2 ++ q :: rest)), 1, col + 1, 0, none,
            STRING_LITERAL⟩ := by
    rcases hq with h | h <;>
      simp [scan_string_literal, ts_lexer_start, advance, to_char_quote, h]
  rw [h, hfuel, hplain]
  simp
  omega

/-- Literals that span a continuation line, in general: for a literal `q s1 LF w c s2 q`
where `s1` and `s2` hold neither `q` nor a line feed, `w` is whitespace that places `c`
at column 5 and `c` is no whitespace, the scanner succeeds with kind `STRING_LITERAL`,
the cursor and the token end stand right after the closing `q`, and the token starts
right after `c`: skipping `c` moves the token start past it, so the opening `q`, `s1`,
the line feed and `w` are outside the token as well. The closing `q` is followed by the
end of input or by a character other than `q`. -/
theorem scan_string_literal_continuation (q c : Char) (s1 w s2 rest : List Char)
    (col : Nat) (sym : TokenType) (hq : q.toNat = 39 ∨ q.toNat = 34)
    (hs1 : ∀ x ∈ s1, x.toNat ≠ q.toNat ∧ x.toNat ≠ 10)
    (hw : ∀ x ∈ w, iswspace x.toNat = true)
    (hcol : column_after col (q :: s1 ++ Char.ofNat 10 :: w) = 5)
    (hc : iswspace c.toNat = false)
    (hs2 : ∀ x ∈ s2, x.toNat ≠ q.toNat ∧ x.toNat ≠ 10)
    (hrest : peek rest ≠ q.toNat) :
    (scan_string_literal
        (ts_lexer_start (q :: s1 ++ Char.ofNat 10 :: w ++ c :: s2 ++ q :: rest) col sym)).1
      = true
    ∧ (scan_string_literal
        (ts_lexer_start (q :: s1 ++ Char.ofNat 10 :: w ++ c :: s2 ++ q :: rest) col sym)).2.result_symbol
      = STRING_LITERAL
    ∧ (scan_string_literal
        (ts_lexer_start (q :: s1 ++ Char.ofNat 10 :: w ++ c :: s2 ++ q :: rest) col sym)).2.input
      = rest
    ∧ (scan_string_literal
        (ts_lexer_start (q :: s1 ++ Char.ofNat 10 :: w ++ c :: s2 ++ q :: rest) col sym)).2.token_stop
      = (q :: s1 ++ Char.ofNat 10 :: w ++ c :: s2 ++ [q]).length
    ∧ (scan_string_literal
        (ts_lexer_start (q :: s1 ++ Char.ofNat 10 :: w ++ c :: s2 ++ q :: rest) col sym)).2.token_start
      = (q :: s1 ++ Char.ofNat 10 :: w ++ [c]).length := by
  rw [scan_string_literal_continuation_run q c s1 w s2 rest col sym hq hs1 hw hcol hc hs2 hrest]
  simp [TSLexer.token_stop]
  omega

/-- An instance of the theorem before: `'abc`, line feed, five blanks, `&`, `def'`. -/
theorem scan_string_literal_continuation_witness :
    (scan_string_literal (ts_lexer_start "'abc\n     &def'".toList 6 INTEGER_LITERAL)).1 = true
    ∧ (scan_string_literal
        (ts_lexer_start "'abc\n     &def'".toList 6 INTEGER_LITERAL)).2.result_symbol
      = STRING_LITERAL
    ∧ (scan_string_literal (ts_lexer_start "'abc\n     &def'".toList 6 INTEGER_LITERAL)).2.input
      = []
    ∧ (scan_string_literal
        (ts_lexer_start "'abc\n     &def'".toList 6 INTEGER_LITERAL)).2.token_stop = 15
    ∧ (scan_string_literal
        (ts_lexer_start "'abc\n     &def'".toList 6 INTEGER_LITERAL)).2.token_start = 11 :=
  scan_string_literal_continuation (Char.ofNat 39) (Char.ofNat 38) "abc".toList "     ".toList
    "def".toList [] 6 INTEGER_LITERAL (by decide) (by decide) (by decide) (by decide)
    (by decide) (by decide) (by decide)

/-- A whitespace character that is no blank in column 5: in `'abc`, line feed, five
blanks, carriage return, `def'` the carriage return stands at column 5, but the scanner
consumes it into the token with the whitespace before it, so no character is skipped
and the token runs from the opening quote (position 0) to the closing quote. -/
theorem scan_string_literal_carriage_return_at_column_five :
    column_after 6 "'abc\n     ".toList = 5
    ∧ "'abc\n     \rdef'".toList.get? 10 = some (Char.ofNat 13)
    ∧ iswblank 13 = false
    ∧ scan_string_literal (ts_lexer_start "'abc\n     \rdef'".toList 6 INTEGER_LITERAL)
        = (true, ⟨[], 15, 10, 0, none, STRING_LITERAL⟩)
    ∧ (scan_string_literal
        (ts_lexer_start "'abc\n     \rdef'".toList 6 INTEGER_LITERAL)).2.token_start = 0
    ∧ (scan_string_literal
        (ts_lexer_start "'abc\n     \rdef'".toList 6 INTEGER_LITERAL)).2.token_stop = 15 := by
  decide

/-- C4: on `'abc`, line feed, five blanks, `&`, `def'` the string-literal scanner
succeeds with kind `STRING_LITERAL` and stops after the closing quote (position 15),
but the literal is not one token: `scan_continuation` consumes `&` with `skip`, which
moves the token start past it to position 11, so the token covers only the four
characters `def'` and the opening quote and `abc` are outside it. -/
theorem scan_string_literal_continuation_token :
    "'abc\n     &def'".toList.length = 15
    ∧ "'abc\n     &def'".toList.drop 11 = "def'".toList
    ∧ scan_string_literal (ts_lexer_start "'abc\n     &def'".toList 6 INTEGER_LITERAL)
        = (true, ⟨[], 15, 10, 11, none, STRING_LITERAL⟩)
    ∧ (scan_string_literal
        (ts_lexer_start "'abc\n     &def'".toList 6 INTEGER_LITERAL)).2.token_start = 11
    ∧ (scan_string_literal
        (ts_lexer_start "'abc\n     &def'".toList 6 INTEGER_LITERAL)).2.token_length = 4 := by
  decide

/-! ## The numeric scanner: match and no-match -/

/-- The loop leaves the text without its longest prefix of characters of the class. -/
theorem while_advance_loop_input (p : Nat → Bool) (b : Bool) :
    ∀ (fuel : Nat) (l : TSLexer), l.input.length ≤ fuel →
      (while_advance_loop p b fuel l).input = l.input.dropWhile (fun c => p c.toNat) := by
  intro fuel
  induction fuel with
  | zero =>
    intro l hl
    have hnil : l.input = [] := List.length_eq_zero.mp (Nat.le_zero.mp hl)
    simp [while_advance_loop, hnil]
  | succ n ih =>
    intro l hl
    obtain ⟨i, ps, c, s, e, k⟩ := l
    cases i with
    | nil =>
      unfold while_advance_loop
      split
      · simpa using ih ⟨[], ps, c, s, e, k⟩ (by simp)
      · simp
    | cons x xs =>
      have hxs : xs.length ≤ n := by simpa using hl
      unfold while_advance_loop
      by_cases hp : p x.toNat = true
      · simpa [hp, List.dropWhile] using ih ⟨xs, ps + 1, _, _, e, k⟩ hxs
      · simp [hp, List.dropWhile]

theorem while_advance_input (p : Nat → Bool) (b : Bool) (l : TSLexer) :
    (while_advance p b l).input = l.input.dropWhile (fun c => p c.toNat) :=
  while_advance_loop_input p b _ l (Nat.le_refl _)

/-- The result of `scan_int` tells whether the lookahead is a digit. -/
theorem scan_int_fst (l : TSLexer) : (scan_int l).1 = iswdigit l.lookahead := by
  unfold scan_int
  cases h : iswdigit l.lookahead <;> simp

theorem scan_int_of_not_digit (l : TSLexer) (h : iswdigit l.lookahead = false) :
    scan_int l = (false, l) := by
  simp [scan_int, h]

theorem scan_number_size_qualifier_fst (l : TSLexer) :
    (scan_number_size_qualifier l).1 = true := by
  unfold scan_number_size_qualifier
  split
  · simp only []
    split <;> rfl
  · rfl

theorem scan_number_exponent_fst (l : TSLexer) : (scan_number_exponent l).1 = true := by
  unfold scan_number_exponent
  split
  · simp only []
    split <;> (split <;> first | rfl | exact scan_number_size_qualifier_fst _)
  · exact scan_number_size_qualifier_fst _

/-- The numeric scanner matches exactly when one of its first two digit runs is found. -/
theorem scan_number_fst (l : TSLexer) :
    (scan_number l).1
      = ((scan_int (scan_number_decimal
            (scan_int { l with result_symbol := INTEGER_LITERAL }).1
            (scan_int { l with result_symbol := INTEGER_LITERAL }).2)).1
          || (scan_int { l with result_symbol := INTEGER_LITERAL }).1) := by
  unfold scan_number
  simp only []
  split
  · rename_i h
    rw [scan_number_exponent_fst, h]
  · rename_i h
    simpa using h

/-- The lookahead after the block on the decimal point, when the text begins with `.`
and no leading digits were found. -/
theorem scan_number_decimal_lookahead (cs : List Char) (x : Char) (hx : x.toNat = 46)
    (pos col ts : Nat) (te : Option Nat) (k : TokenType) :
    (scan_number_decimal false ⟨x :: cs, pos, col, ts, te, k⟩).lookahead
      = peek (cs.dropWhile (fun c => iswblank c.toNat)) := by
  simp [scan_number_decimal, hx, advance, TSLexer.lookahead, while_advance_input]

/-- C9: the numeric scanner returns a match if and only if the text at the cursor starts
with a decimal digit, or with `.` followed by zero or more horizontal blanks and then a
decimal digit. -/
theorem scan_number_match_iff (l : TSLexer) :
    (scan_number l).1 = true ↔ starts_number l.input = true := by
  rw [scan_number_fst, scan_int_fst]
  obtain ⟨i, pos, col, ts, te, k⟩ := l
  cases i with
  | nil => simp [starts_number, scan_int, scan_number_decimal, iswdigit]
  | cons x cs =>
    by_cases hd : iswdigit x.toNat = true
    · simp [starts_number, hd, scan_int_fst]
    · have hd2 : iswdigit x.toNat = false := by simpa using hd
      have hint : scan_int ⟨x :: cs, pos, col, ts, te, INTEGER_LITERAL⟩
          = (false, ⟨x :: cs, pos, col, ts, te, INTEGER_LITERAL⟩) :=
        scan_int_of_not_digit _ (by simpa using hd2)
      simp only [hint, scan_int_fst, lookahead_mk, peek_cons, hd2, Bool.or_false, starts_number,
        Bool.false_or]
      by_cases hx : x.toNat = 46
      · rw [scan_number_decimal_lookahead cs x hx]
        simp [hx]
      · simp [scan_number_decimal, hx, hd2]

/-! ## The numeric scanner: exponent and size qualifier -/

/-- An including loop moves the cursor forward and leaves the token start, the marked
end and the kind as they were. -/
theorem while_advance_loop_include (p : Nat → Bool) :
    ∀ (fuel : Nat) (l : TSLexer),
      (while_advance_loop p false fuel l).token_start = l.token_start
      ∧ (while_advance_loop p false fuel l).token_end = l.token_end
      ∧ (while_advance_loop p false fuel l).result_symbol = l.result_symbol
      ∧ l.pos ≤ (while_advance_loop p false fuel l).pos := by
  intro fuel
  induction fuel with
  | zero => intro l; simp [while_advance_loop]
  | succ n ih =>
    intro l
    unfold while_advance_loop
    split
    · obtain ⟨h1, h2, h3, h4⟩ := ih (l.advance false)
      obtain ⟨i, ps, c, s, e, k⟩ := l
      cases i with
      | nil => exact ⟨h1, h2, h3, h4⟩
      | cons x xs =>
        simp only [advance_mk_cons] at h1 h2 h3 h4 ⊢
        refine ⟨by simpa using h1, h2, h3, by omega⟩
    · simp

/-- The size qualifier after a number whose end is marked at the cursor: the kind and the
token start stay, the token end does not move back, and it stays where it is unless an
underscore followed by a letter or digit is at the cursor. -/
theorem scan_number_size_qualifier_marked (rest : List Char) (pos col ts : Nat)
    (k : TokenType) :
    (scan_number_size_qualifier ⟨rest, pos, col, ts, some pos, k⟩).1 = true
    ∧ (scan_number_size_qualifier ⟨rest, pos, col, ts, some pos, k⟩).2.result_symbol = k
    ∧ (scan_number_size_qualifier ⟨rest, pos, col, ts, some pos, k⟩).2.token_start = ts
    ∧ pos ≤ (scan_number_size_qualifier ⟨rest, pos, col, ts, some pos, k⟩).2.token_stop
    ∧ (¬ (peek rest = 95 ∧ isalnum (peek rest.tail) = true) →
        (scan_number_size_qualifier ⟨rest, pos, col, ts, some pos, k⟩).2.token_stop = pos) := by
  cases rest with
  | nil => simp [scan_number_size_qualifier, TSLexer.token_stop]
  | cons x xs =>
    by_cases hx : x.toNat = 95
    · by_cases ha : isalnum (peek xs) = true
      · obtain ⟨h1, _, h3, h4⟩ := while_advance_loop_include is_ident_char xs.length
          ⟨xs, pos + 1, col + 1, ts, some pos, k⟩
        simp only [] at h1 h3 h4
        simp [scan_number_size_qualifier, hx, ha, advance, while_advance, TSLexer.mark_end,
          TSLexer.token_stop, h1, h3]
        omega
      · simp [scan_number_size_qualifier, hx, ha, advance, TSLexer.token_stop]
    · simp [scan_number_size_qualifier, hx, TSLexer.token_stop]

theorem exp_sentinel_facts (s : Nat) (hs : s = 68 ∨ s = 100 ∨ s = 69 ∨ s = 101) :
    is_exp_sentinel s = true ∧ iswdigit s = false ∧ s ≠ 46 ∧ s ≠ 10 := by
  rcases hs with h | h | h | h <;> subst h <;> decide

/-- The numeric scanner on digits `ds`, an exponent sentinel `s` and a sign, when no
exponent digit follows: the token is `ds`, the kind `INTEGER_LITERAL`. -/
theorem scan_number_exponent_without_digits (ds sign rest : List Char) (s : Char) (col : Nat)
    (sym : TokenType) (hne : ds ≠ []) (hds : ∀ c ∈ ds, iswdigit c.toNat = true)
    (hs : s.toNat = 68 ∨ s.toNat = 100 ∨ s.toNat = 69 ∨ s.toNat = 101)
    (hsign : sign = [Char.ofNat 43] ∨ sign = [Char.ofNat 45]
      ∨ (sign = [] ∧ peek rest ≠ 43 ∧ peek rest ≠ 45))
    (hrest : iswdigit (peek rest) = false) :
    scan_number (ts_lexer_start (ds ++ s :: sign ++ rest) col sym)
      = (true, ⟨rest, ds.length + 1 + sign.length, col + ds.length + 1 + sign.length, 0,
          some ds.length, INTEGER_LITERAL⟩) := by
  obtain ⟨hs1, hs2, hs3, hs4⟩ := exp_sentinel_facts s.toNat hs
  have h1 := scan_int_run ds (s :: (sign ++ rest)) 0 col 0 none INTEGER_LITERAL hne hds
    (by simpa using hs2)
  have h2 := scan_int_none (s :: (sign ++ rest)) (0 + ds.length) (col + ds.length) 0
    (some (0 + ds.length)) INTEGER_LITERAL (by simpa using hs2)
  have h3 := scan_int_none rest
  simp only [scan_number, ts_lexer_start, List.append_assoc, List.cons_append, h1,
    scan_number_decimal, lookahead_mk, peek_cons, beq_iff_eq, hs3, if_false, h2,
    Bool.or_true, if_true, scan_number_exponent, hs1, advance, advance_mk_cons, if_neg hs4]
  rcases hsign with h | h | ⟨h, h43, h45⟩
  · subst h
    simp [h3 _ _ _ _ _ hrest]
  · subst h
    simp [h3 _ _ _ _ _ hrest]
  · subst h
    simp [h3 _ _ _ _ _ hrest, h43, h45]

/-- The numeric scanner on digits `ds`, an exponent sentinel `s`, a sign and a non-empty
run `es` of exponent digits: the kind is `FLOAT_LITERAL`, the end is marked after `es`,
and the size qualifier is tried from there. -/
theorem scan_number_exponent_with_digits (ds sign es rest : List Char) (s : Char) (col : Nat)
    (sym : TokenType) (hne : ds ≠ []) (hds : ∀ c ∈ ds, iswdigit c.toNat = true)
    (hs : s.toNat = 68 ∨ s.toNat = 100 ∨ s.toNat = 69 ∨ s.toNat = 101)
    (hsign : sign = [Char.ofNat 43] ∨ sign = [Char.ofNat 45] ∨ sign = [])
    (hene : es ≠ []) (hes : ∀ c ∈ es, iswdigit c.toNat = true)
    (hrest : iswdigit (peek rest) = false) :
    scan_number (ts_lexer_start (ds ++ s :: sign ++ es ++ rest) col sym)
      = scan_number_size_qualifier
          ⟨rest, ds.length + 1 + sign.length + es.length,
            col + ds.length + 1 + sign.length + es.length, 0,
            some (ds.length + 1 + sign.length + es.length), FLOAT_LITERAL⟩ := by
  obtain ⟨hs1, hs2, hs3, hs4⟩ := exp_sentinel_facts s.toNat hs
  have hpeek : iswdigit (peek (es ++ rest)) = true := by
    cases es with
    | nil => exact absurd rfl hene
    | cons e es => simpa using hes e (List.mem_cons_self _ _)
  have hp43 : peek (es ++ rest) ≠ 43 := by
    intro h; rw [h] at hpeek; simp [iswdigit] at hpeek
  have hp45 : peek (es ++ rest) ≠ 45 := by
    intro h; rw [h] at hpeek; simp [iswdigit] at hpeek
  have h1 := scan_int_run ds (s :: (sign ++ (es ++ rest))) 0 col 0 none INTEGER_LITERAL hne hds
    (by simpa using hs2)
  have h2 := scan_int_none (s :: (sign ++ (es ++ rest))) (0 + ds.length) (col + ds.length) 0
    (some (0 + ds.length)) INTEGER_LITERAL (by simpa using hs2)
  have h3 := fun pos c te => scan_int_run es rest pos c 0 te INTEGER_LITERAL hene hes hrest
  simp only [scan_number, ts_lexer_start, List.append_assoc, List.cons_append, h1,
    scan_number_decimal, lookahead_mk, peek_cons, beq_iff_eq, hs3, if_false, h2,
    Bool.or_true, if_true, scan_number_exponent, hs1, advance, advance_mk_cons, if_neg hs4]
  rcases hsign with h | h | h
  · subst h
    simp [h3]
  · subst h
    simp [h3]
  · subst h
    simp [h3, hp43, hp45]

/-- C10: for a non-empty digit run `ds` followed by an exponent sentinel `s` (`D`, `d`,
`E` or `e`), an optional sign (taken when present) and the longest run `es` of digits:
if `es` is empty the scanner succeeds with kind `INTEGER_LITERAL` and the token is `ds`,
the sentinel and the sign staying outside; if `es` is not empty the scanner succeeds with
kind `FLOAT_LITERAL` and the token reaches through the last digit of `es`; it ends there
unless a size qualifier (underscore and a letter or digit) follows. -/
theorem scan_number_exponent_forms (ds sign es rest : List Char) (s : Char) (col : Nat)
    (sym : TokenType) (hne : ds ≠ []) (hds : ∀ c ∈ ds, iswdigit c.toNat = true)
    (hs : s.toNat = 68 ∨ s.toNat = 100 ∨ s.toNat = 69 ∨ s.toNat = 101)
    (hsign : sign = [Char.ofNat 43] ∨ sign = [Char.ofNat 45]
      ∨ (sign = [] ∧ peek (es ++ rest) ≠ 43 ∧ peek (es ++ rest) ≠ 45))
    (hes : ∀ c ∈ es, iswdigit c.toNat = true) (hrest : iswdigit (peek rest) = false) :
    (scan_number (ts_lexer_start (ds ++ s :: sign ++ es ++ rest) col sym)).1 = true
    ∧ (scan_number (ts_lexer_start (ds ++ s :: sign ++ es ++ rest) col sym)).2.token_start = 0
    ∧ (es = [] →
        (scan_number (ts_lexer_start (ds ++ s :: sign ++ es ++ rest) col sym)).2.result_symbol
          = INTEGER_LITERAL
        ∧ (scan_number (ts_lexer_start (ds ++ s :: sign ++ es ++ rest) col sym)).2.token_stop
          = ds.length)
    ∧ (es ≠ [] →
        (scan_number (ts_lexer_start (ds ++ s :: sign ++ es ++ rest) col sym)).2.result_symbol
          = FLOAT_LITERAL
        ∧ (ds ++ s :: sign ++ es).length
          ≤ (scan_number (ts_lexer_start (ds ++ s :: sign ++ es ++ rest) col sym)).2.token_stop
        ∧ (¬ (peek rest = 95 ∧ isalnum (peek rest.tail) = true) →
            (scan_number (ts_lexer_start (ds ++ s :: sign ++ es ++ rest) col sym)).2.token_stop
              = (ds ++ s :: sign ++ es).length)) := by
  by_cases he : es = []
  · subst he
    have h := scan_number_exponent_without_digits ds sign rest s col sym hne hds hs
      (by simpa using hsign) hrest
    simp only [List.append_nil] at h ⊢
    rw [h]
    simp [TSLexer.token_stop]
  · have hsign2 : sign = [Char.ofNat 43] ∨ sign = [Char.ofNat 45] ∨ sign = [] := by
      rcases hsign with h | h | h
      · exact Or.inl h
      · exact Or.inr (Or.inl h)
      · exact Or.inr (Or.inr h.1)
    rw [scan_number_exponent_with_digits ds sign es rest s col sym hne hds hs hsign2 he hes
      hrest]
    obtain ⟨h1, h2, h3, h4, h5⟩ := scan_number_size_qualifier_marked rest
      (ds.length + 1 + sign.length + es.length)
      (col + ds.length + 1 + sign.length + es.length) 0 FLOAT_LITERAL
    have hlen : (ds ++ s :: sign ++ es).length = ds.length + 1 + sign.length + es.length := by
      simp
      omega
    rw [hlen]
    exact ⟨h1, h3, fun h => absurd h he, fun _ => ⟨h2, h4, h5⟩⟩

/-- Witness of C10: `1D` at the end of input is the integer `1`, and `12E+34` is a float
of six characters. -/
theorem scan_number_exponent_forms_witness :
    ((scan_number (ts_lexer_start "1D".toList 6 STRING_LITERAL)).2.result_symbol
        = INTEGER_LITERAL
      ∧ (scan_number (ts_lexer_start "1D".toList 6 STRING_LITERAL)).2.token_stop = 1)
    ∧ ((scan_number (ts_lexer_start "12E+34 ".toList 6 STRING_LITERAL)).2.result_symbol
        = FLOAT_LITERAL
      ∧ (scan_number (ts_lexer_start "12E+34 ".toList 6 STRING_LITERAL)).2.token_stop = 6) :=
  ⟨(scan_number_exponent_forms "1".toList [] [] [] (Char.ofNat 68) 6 STRING_LITERAL
      (by decide) (by decide) (by decide) (by decide) (by decide) (by decide)).2.2.1 rfl,
   ((scan_number_exponent_forms "12".toList "+".toList "34".toList " ".toList (Char.ofNat 69) 6
      STRING_LITERAL (by decide) (by decide) (by decide) (by decide) (by decide)
      (by decide)).2.2.2 (by decide)).1,
   ((scan_number_exponent_forms "12".toList "+".toList "34".toList " ".toList (Char.ofNat 69) 6
      STRING_LITERAL (by decide) (by decide) (by decide) (by decide) (by decide)
      (by decide)).2.2.2 (by decide)).2.2 (by decide)⟩

/-! ## The numeric scanner: the decimal point -/

/-- A code point below 256 that is no letter or digit is no exponent sentinel: the
conversion to `char` leaves it as it is. -/
theorem not_exp_sentinel_of_small (c : Nat) (hc : c < 256) (ha : iswalnum c = false) :
    is_exp_sentinel c = false := by
  have hm : c % 256 = c := Nat.mod_eq_of_lt hc
  simp only [iswalnum, iswdigit, Bool.or_eq_false_iff, Bool.and_eq_false_iff,
    decide_eq_false_iff_not] at ha
  simp only [is_exp_sentinel, to_char, hm, Bool.or_eq_false_iff, beq_eq_false_iff_ne]
  omega

/-- The numeric scanner on `ds . fs`, with `ds` a non-empty digit run and `fs` a digit
run, followed by the end of input or by a character that is neither a letter or digit,
nor a blank, nor an underscore, nor an exponent sentinel after its conversion to `char`:
the kind is `FLOAT_LITERAL` and the token covers `ds . fs`. -/
theorem scan_number_decimal_form (ds fs rest : List Char) (dot : Char) (col : Nat)
    (sym : TokenType) (hne : ds ≠ []) (hds : ∀ c ∈ ds, iswdigit c.toNat = true)
    (hdot : dot.toNat = 46) (hfs : ∀ c ∈ fs, iswdigit c.toNat = true)
    (halnum : iswalnum (peek rest) = false) (hblank : iswblank (peek rest) = false)
    (hunder : peek rest ≠ 95) (hexp : is_exp_sentinel (peek rest) = false) :
    scan_number (ts_lexer_start (ds ++ dot :: fs ++ rest) col sym)
      = (true, ⟨rest, ds.length + 1 + fs.length, col + ds.length + 1 + fs.length, 0,
          some (ds.length + 1 + fs.length), FLOAT_LITERAL⟩) := by
  have hdig : iswdigit (peek rest) = false := by
    simp only [iswalnum, Bool.or_eq_false_iff] at halnum
    exact halnum.1.1
  have hdotd : iswdigit dot.toNat = false := by rw [hdot]; decide
  have h1 := scan_int_run ds (dot :: (fs ++ rest)) 0 col 0 none INTEGER_LITERAL hne hds
    (by simpa using hdotd)
  simp only [scan_number, ts_lexer_start, List.append_assoc, List.cons_append, h1,
    scan_number_decimal, lookahead_mk, peek_cons, hdot, beq_self_eq_true, if_true, advance,
    advance_mk_cons]
  cases fs with
  | nil =>
    have hw := while_advance_none iswblank true rest (0 + ds.length + 1)
      (if (46 : Nat) = 10 then 0 else col + ds.length + 1) 0 (some (0 + ds.length))
      INTEGER_LITERAL hblank
    have h2 := fun te => scan_int_none rest (0 + ds.length + 1)
      (if (46 : Nat) = 10 then 0 else col + ds.length + 1) 0 te FLOAT_LITERAL hdig
    simp only [List.nil_append, hw, lookahead_mk, halnum, Bool.not_false, Bool.and_self,
      if_true, mark_end_mk, h2, Bool.or_true, scan_number_exponent, hexp, Bool.false_eq_true,
      if_false, scan_number_size_qualifier, beq_iff_eq, hunder]
    simp
  | cons f fs =>
    have hf : iswdigit f.toNat = true := hfs f (List.mem_cons_self _ _)
    have hfb : iswblank (peek (f :: fs ++ rest)) = false := by
      simp only [List.cons_append, peek_cons]
      simp only [iswdigit, Bool.and_eq_true, decide_eq_true_eq] at hf
      simp only [iswblank, Bool.or_eq_false_iff, beq_eq_false_iff_ne]
      omega
    have hfa : iswalnum (peek (f :: fs ++ rest)) = true := by
      simp [iswalnum, hf]
    have hw := while_advance_none iswblank true (f :: fs ++ rest) (0 + ds.length + 1)
      (if (46 : Nat) = 10 then 0 else col + ds.length + 1) 0 (some (0 + ds.length))
      INTEGER_LITERAL hfb
    have h2 := fun pos c te => scan_int_run (f :: fs) rest pos c 0 te FLOAT_LITERAL
      (by simp) hfs hdig
    simp only [List.cons_append] at hw hfa h2
    simp only [List.cons_append, hw, lookahead_mk, hfa, Bool.not_true, Bool.and_false,
      Bool.false_eq_true, if_false, h2, Bool.or_true, if_true, scan_number_exponent, hexp,
      scan_number_size_qualifier, beq_iff_eq, hunder]
    simp

/-- C8: on `1.0≤5` (the character after `1.0` is U+2264, no letter or digit, no blank,
no underscore) the numeric scanner takes `≤` for the exponent sentinel `d`, since
`is_exp_sentinel` receives the code point 8804 converted to `char`, which is 100; the
`FLOAT_LITERAL` token covers all five characters, not the three of `1.0`. -/
theorem scan_number_wide_exponent_sentinel :
    "1.0≤5".toList = "1.0".toList ++ Char.ofNat 8804 :: "5".toList
    ∧ iswalnum 8804 = false ∧ iswblank 8804 = false ∧ 8804 ≠ 95
    ∧ to_char 8804 = 100
    ∧ scan_number (ts_lexer_start "1.0≤5".toList 6 STRING_LITERAL)
        = (true, ⟨[], 5, 11, 0, some 5, FLOAT_LITERAL⟩) := by
  decide

/-! ## The BOZ scanner -/

/-- The quoted part of `scan_boz` succeeds exactly on the quoted shape, with the
sentinels as `is_boz_sentinel` classifies them. -/
theorem scan_boz_quoted_fst (pfx : Bool) (l : TSLexer) :
    (scan_boz_quoted pfx l).1 = boz_quoted_shape is_boz_sentinel (!pfx) l.input := by
  obtain ⟨i, pos, col, ts, te, k⟩ := l
  cases i with
  | nil => simp [scan_boz_quoted, boz_quoted_shape]
  | cons q cs =>
    by_cases hq : q.toNat = 39 ∨ q.toNat = 34
    · have hqc : to_char q.toNat = q.toNat := to_char_quote _ hq
      have hq' : (q.toNat == 39 || q.toNat == 34) = true := by simpa using hq
      simp only [scan_boz_quoted, boz_quoted_shape, lookahead_mk, peek_cons, hq', if_true, hqc,
        advance, advance_mk_cons, Bool.true_and]
      by_cases hx : isxdigit (peek cs) = true
      · simp only [hx, Bool.not_true, Bool.false_eq_true, if_false, Bool.true_and]
        simp only [TSLexer.lookahead, while_advance_input, advance_input_tail]
        by_cases hc : peek (List.dropWhile (fun c => isxdigit c.toNat) cs) = q.toNat
        · cases pfx <;>
            cases hs : is_boz_sentinel
              (peek (List.dropWhile (fun c => isxdigit c.toNat) cs).tail) <;>
            simp [hc, hs]
        · simp [hc]
      · simp [hx]
    · have hq' : (q.toNat == 39 || q.toNat == 34) = false := by simpa using hq
      simp [scan_boz_quoted, boz_quoted_shape, hq']

/-- The conversion to `char` changes no code point below 256, so `is_boz_sentinel`
classifies those as the sentinel letters. -/
theorem is_boz_sentinel_of_small (c : Nat) (hc : c < 256) :
    is_boz_sentinel c = is_sentinel_letter c := by
  simp [is_boz_sentinel, is_sentinel_letter, to_char, Nat.mod_eq_of_lt hc]

theorem peek_lt_of_forall (xs : List Char) (h : ∀ c ∈ xs, c.toNat < 256) : peek xs < 256 := by
  cases xs with
  | nil => simp
  | cons x xs => simpa using h x (List.mem_cons_self _ _)

theorem boz_quoted_shape_of_small (need : Bool) (xs : List Char)
    (h : ∀ c ∈ xs, c.toNat < 256) :
    boz_quoted_shape is_boz_sentinel need xs = boz_quoted_shape is_sentinel_letter need xs := by
  cases xs with
  | nil => rfl
  | cons q cs =>
    have hsub : ∀ c ∈ (List.dropWhile (fun c => isxdigit c.toNat) cs).tail, c.toNat < 256 := by
      intro c hc
      apply h c
      apply List.mem_cons_of_mem
      exact (List.dropWhile_suffix _).subset ((List.tail_suffix _).subset hc)
    simp only [boz_quoted_shape, is_boz_sentinel_of_small _ (peek_lt_of_forall _ hsub)]

/-- On a text of code points below 256, the BOZ scanner succeeds if and only if the text
at the cursor has the shape of a BOZ literal. -/
theorem scan_boz_match_iff_of_small (l : TSLexer) (h : ∀ c ∈ l.input, c.toNat < 256) :
    (scan_boz l).1 = true ↔ boz_shape l.input = true := by
  obtain ⟨i, pos, col, ts, te, k⟩ := l
  cases i with
  | nil => simp [scan_boz, scan_boz_quoted_fst, boz_shape, boz_quoted_shape, is_boz_sentinel,
      to_char]
  | cons x cs =>
    have hx : x.toNat < 256 := h x (List.mem_cons_self _ _)
    have hcs : ∀ c ∈ cs, c.toNat < 256 := fun c hc => h c (List.mem_cons_of_mem _ hc)
    simp only [scan_boz, boz_shape, lookahead_mk, peek_cons, is_boz_sentinel_of_small _ hx]
    by_cases hs : is_sentinel_letter x.toNat = true
    · simp only [hs, if_true, scan_boz_quoted_fst, Bool.not_true, advance, advance_mk_cons]
      rw [boz_quoted_shape_of_small _ cs hcs]
    · simp only [hs, Bool.false_eq_true, if_false, scan_boz_quoted_fst, Bool.not_false]
      rw [boz_quoted_shape_of_small _ (x :: cs) h]

/-- C6: on `ł'1010'` (U+0142 in front of the quote) the BOZ scanner succeeds with a
`BOZ_LITERAL` token of all seven characters although the text has not the shape of a BOZ
literal: `is_boz_sentinel` receives the code point 322 converted to `char`, which is 66,
the letter `B`. -/
theorem scan_boz_wide_sentinel :
    "ł'1010'".toList = Char.ofNat 322 :: "'1010'".toList
    ∧ to_char 322 = 66
    ∧ boz_shape "ł'1010'".toList = false
    ∧ scan_boz (ts_lexer_start "ł'1010'".toList 6 STRING_LITERAL)
        = (true, ⟨[], 7, 13, 0, some 7, BOZ_LITERAL⟩) := by
  decide

/-- Every BOZ literal in suffix form (quote `q`, hexadecimal digits `hs`, the same quote,
a sentinel letter `t`) is matched with the token end marked right after the closing
quote; the sentinel `t` stays as the lookahead. -/
theorem scan_boz_suffix_form (q t : Char) (hs rest : List Char) (col : Nat) (sym : TokenType)
    (hq : q.toNat = 39 ∨ q.toNat = 34) (hne : hs ≠ [])
    (hhs : ∀ c ∈ hs, isxdigit c.toNat = true) (ht : is_sentinel_letter t.toNat = true) :
    scan_boz (ts_lexer_start (q :: hs ++ q :: t :: rest) col sym)
      = (true, ⟨t :: rest, hs.length + 2, col + hs.length + 2, 0, some (hs.length + 2),
          BOZ_LITERAL⟩) := by
  have hqs : is_boz_sentinel q.toNat = false := by
    rcases hq with h | h <;> rw [h] <;> decide
  have hqx : isxdigit q.toNat = false := by
    rcases hq with h | h <;> rw [h] <;> decide
  have hq10 : q.toNat ≠ 10 := by rcases hq with h | h <;> omega
  have hqc : to_char q.toNat = q.toNat := to_char_quote _ hq
  have hq' : (q.toNat == 39 || q.toNat == 34) = true := by simpa using hq
  have hts : is_boz_sentinel t.toNat = true := by
    simp only [is_sentinel_letter, Bool.or_eq_true, beq_iff_eq] at ht
    have hlt : t.toNat < 256 := by omega
    rw [is_boz_sentinel_of_small _ hlt]
    simpa [is_sentinel_letter] using ht
  have hhead : isxdigit (peek (hs ++ q :: t :: rest)) = true := by
    cases hs with
    | nil => exact absurd rfl hne
    | cons d ds => simpa using hhs d (List.mem_cons_self _ _)
  have hcol : ∀ c0, column_after c0 hs = c0 + hs.length := fun c0 =>
    column_after_of_no_newline c0 hs (fun c hc h10 => by
      have := hhs c hc
      rw [h10] at this
      exact absurd this (by decide))
  have hrun := while_advance_run isxdigit false hs (q :: t :: rest) 1 (col + 1) 0 none
    BOZ_LITERAL hhs (by simpa using hqx)
  simp only [scan_boz, scan_boz_quoted, ts_lexer_start, List.cons_append, lookahead_mk,
    peek_cons, hqs, Bool.false_eq_true, if_false, hq', if_true, hqc, advance, advance_mk_cons,
    hhead, Bool.not_true, hrun, if_neg hq10, bne_self_eq_false, hts, Bool.not_false,
    Bool.and_false, Bool.false_and, mark_end_mk, hcol]
  simp
  omega

/-! ## The comment and continuation recognizers -/

/-- C12: the comment recognizer succeeds if and only if the current character is `!`, or
is `c`, `C` or `*` with the column exactly 0. On success it consumes exactly that one
character into the token (the token start and the marked end stay) and records
`COMMENT_CHARACTER`; on failure it changes nothing. -/
theorem scan_comment_spec (l : TSLexer) :
    ((scan_comment l).1 = true ↔
      (l.lookahead = 33
        ∨ ((l.lookahead = 99 ∨ l.lookahead = 67 ∨ l.lookahead = 42) ∧ l.column = 0)))
    ∧ ((scan_comment l).1 = true →
        l.input ≠ []
        ∧ (scan_comment l).2.input = l.input.tail
        ∧ (scan_comment l).2.pos = l.pos + 1
        ∧ (scan_comment l).2.token_start = l.token_start
        ∧ (scan_comment l).2.token_end = l.token_end
        ∧ (scan_comment l).2.result_symbol = COMMENT_CHARACTER)
    ∧ ((scan_comment l).1 = false → (scan_comment l).2 = l) := by
  obtain ⟨i, pos, col, ts, te, k⟩ := l
  cases i with
  | nil => simp [scan_comment, is_comment_character, get_column]
  | cons x xs =>
    by_cases h : is_comment_character ⟨x :: xs, pos, col, ts, te, k⟩ = true
    · have h2 := h
      simp only [is_comment_character, get_column, lookahead_mk, peek_cons, Bool.or_eq_true,
        Bool.and_eq_true, beq_iff_eq] at h2
      simp only [scan_comment, h, advance, lookahead_mk, peek_cons]
      simp
      tauto
    · have h2 := h
      simp only [is_comment_character, get_column, lookahead_mk, peek_cons, Bool.or_eq_true,
        Bool.and_eq_true, beq_iff_eq] at h2
      simp only [scan_comment, h, lookahead_mk, peek_cons]
      simp
      tauto

/-- The continuation recognizer at a character: when the cursor is not at the end of
input, the recognizer succeeds if and only if the column is exactly 5 and the current
character is no horizontal blank. On success it consumes exactly that one character and
excludes it (the token starts after it) and records `LINE_CONTINUATION`; on failure it
changes nothing. -/
theorem scan_continuation_spec (c : Char) (rest : List Char) (pos col ts : Nat)
    (te : Option Nat) (k : TokenType) :
    ((scan_continuation ⟨c :: rest, pos, col, ts, te, k⟩).1 = true ↔
      (col = 5 ∧ iswblank c.toNat = false))
    ∧ ((scan_continuation ⟨c :: rest, pos, col, ts, te, k⟩).1 = true →
        (scan_continuation ⟨c :: rest, pos, col, ts, te, k⟩).2
          = ⟨rest, pos + 1, if c.toNat = 10 then 0 else col + 1, pos + 1, te,
              LINE_CONTINUATION⟩)
    ∧ ((scan_continuation ⟨c :: rest, pos, col, ts, te, k⟩).1 = false →
        (scan_continuation ⟨c :: rest, pos, col, ts, te, k⟩).2
          = ⟨c :: rest, pos, col, ts, te, k⟩) := by
  by_cases h : col = 5 ∧ iswblank c.toNat = false
  · simp [scan_continuation, get_column, skip, h.1, h.2]
  · have h2 : (col == 5 && !iswblank c.toNat) = false := by
      simp only [not_and, Bool.not_eq_false] at h
      by_cases h5 : col = 5
      · simp [h5, h h5]
      · simp [h5]
    simp only [scan_continuation, get_column, lookahead_mk, peek_cons, h2]
    simp
    simpa using h

/-- The continuation recognizer at every cursor state, the end of input included: it
succeeds if and only if the column is exactly 5 and the lookahead is no horizontal
blank; on success the result is the cursor after `skip` with the kind
`LINE_CONTINUATION`; on failure the cursor, and so the kind, is unchanged. -/
theorem scan_continuation_frame (l : TSLexer) :
    ((scan_continuation l).1 = true ↔ (l.column = 5 ∧ iswblank l.lookahead = false))
    ∧ ((scan_continuation l).1 = true →
        (scan_continuation l).2 = { skip l with result_symbol := LINE_CONTINUATION })
    ∧ ((scan_continuation l).1 = false → (scan_continuation l).2 = l) := by
  by_cases h : (get_column l == 5 && !iswblank l.lookahead) = true
  · have h2 := h
    simp only [get_column, Bool.and_eq_true, beq_iff_eq, Bool.not_eq_true'] at h2
    simp only [scan_continuation, h, if_true]
    simp [h2.1, h2.2]
  · have h2 := h
    simp only [get_column, Bool.and_eq_true, beq_iff_eq, Bool.not_eq_true'] at h2
    simp only [scan_continuation, h]
    simp
    simpa using h2

/-- C13: at the end of input in column 5 the continuation recognizer succeeds and
records `LINE_CONTINUATION`, but it consumes no character: the lookahead `0` of the end
of input is no blank, `scan_continuation` does not test `eof`, and `skip` does nothing
there, so the cursor position stays 0. -/
theorem scan_continuation_at_end_of_input :
    (scan_continuation ⟨[], 0, 5, 0, none, INTEGER_LITERAL⟩).1 = true
    ∧ (scan_continuation ⟨[], 0, 5, 0, none, INTEGER_LITERAL⟩).2
        = ⟨[], 0, 5, 0, none, LINE_CONTINUATION⟩ := by
  decide

/-! ## The dispatcher at a semicolon or at the end of input -/

/-- C17: when `END_OF_STATEMENT` is requested and, after the leading horizontal blanks
`bs`, the current character is a semicolon or the end of input is reached, the dispatcher
succeeds with kind `END_OF_STATEMENT`, whatever else is requested and whatever the
column; the semicolon is consumed and excluded, so the token is empty and starts at the
cursor. -/
theorem scan_semicolon_or_end_of_input (bs rest : List Char) (col : Nat) (sym : TokenType)
    (valid_symbols : TokenType → Bool) (hvalid : valid_symbols END_OF_STATEMENT = true)
    (hbs : ∀ b ∈ bs, iswblank b.toNat = true) (hrest : peek rest = 59 ∨ rest = []) :
    (scan (ts_lexer_start (bs ++ rest) col sym) valid_symbols).1 = true
    ∧ (scan (ts_lexer_start (bs ++ rest) col sym) valid_symbols).2.result_symbol
        = END_OF_STATEMENT
    ∧ (scan (ts_lexer_start (bs ++ rest) col sym) valid_symbols).2.input = rest.tail
    ∧ (scan (ts_lexer_start (bs ++ rest) col sym) valid_symbols).2.pos
        = bs.length + (if rest = [] then 0 else 1)
    ∧ (scan (ts_lexer_start (bs ++ rest) col sym) valid_symbols).2.token_start
        = (scan (ts_lexer_start (bs ++ rest) col sym) valid_symbols).2.pos
    ∧ (scan (ts_lexer_start (bs ++ rest) col sym) valid_symbols).2.token_length = 0 := by
  have hnb : iswblank (peek rest) = false := by
    rcases hrest with h | h
    · rw [h]; decide
    · rw [h]; decide
  have hrun := while_advance_run iswblank true bs rest 0 col 0 none sym hbs hnb
  have hts : (if (true && !bs.isEmpty) = true then 0 + bs.length else 0) = bs.length := by
    cases bs <;> simp
  rw [hts] at hrun
  simp only [scan, ts_lexer_start, hrun, hvalid, if_true]
  cases rest with
  | nil => simp [scan_end_of_statement, skip, TSLexer.eof, TSLexer.token_length,
      TSLexer.token_stop]
  | cons x xs =>
    have hx : x.toNat = 59 := by
      rcases hrest with h | h
      · simpa using h
      · cases h
    simp [scan_end_of_statement, skip, TSLexer.eof, TSLexer.token_length,
      TSLexer.token_stop, hx]

/-- Witness of C17: two blanks and a semicolon with only `END_OF_STATEMENT` requested,
and a tab followed by the end of input with every kind requested. -/
theorem scan_semicolon_or_end_of_input_witness :
    ((scan (ts_lexer_start "  ;x".toList 7 INTEGER_LITERAL)
        (fun k => decide (k = END_OF_STATEMENT))).2.result_symbol = END_OF_STATEMENT
      ∧ (scan (ts_lexer_start "  ;x".toList 7 INTEGER_LITERAL)
        (fun k => decide (k = END_OF_STATEMENT))).2.input = "x".toList)
    ∧ (scan (ts_lexer_start "\t".toList 0 INTEGER_LITERAL) (fun _ => true)).1 = true :=
  ⟨⟨(scan_semicolon_or_end_of_input "  ".toList ";x".toList 7 INTEGER_LITERAL
        (fun k => decide (k = END_OF_STATEMENT)) (by decide) (by decide) (by decide)).2.1,
    (scan_semicolon_or_end_of_input "  ".toList ";x".toList 7 INTEGER_LITERAL
        (fun k => decide (k = END_OF_STATEMENT)) (by decide) (by decide) (by decide)).2.2.1⟩,
   (scan_semicolon_or_end_of_input "\t".toList [] 0 INTEGER_LITERAL (fun _ => true) rfl
      (by decide) (by decide)).1⟩

/-! ## The doubled quote -/

/-- The scanner on `q content q` with all delimiters of the content doubled, as one
equation on the cursor. -/
theorem scan_string_literal_closed_run (q : Char) (content rest : List Char) (col : Nat)
    (sym : TokenType) (hq : q.toNat = 39 ∨ q.toNat = 34)
    (hcontent : is_doubled_content q.toNat content = true) (hrest : peek rest ≠ q.toNat) :
    scan_string_literal (ts_lexer_start (q :: content ++ q :: rest) col sym)
      = (true, ⟨rest, 1 + content.length + 1, col + 1 + content.length + 1, 0, none,
          STRING_LITERAL⟩) := by
  have hq10 : q.toNat ≠ 10 := by rcases hq with h | h <;> omega
  have hloop := scan_string_literal_loop_doubled q.toNat q rest rfl hq10 hrest
    (content ++ q :: rest).length content 1 (col + 1) 0 none hcontent (by simp)
  rw [← hloop]
  rcases hq with h | h <;>
    simp [scan_string_literal, ts_lexer_start, advance, to_char_quote, h]

/-- C18, as amended: on `'it''s'` the string-literal scanner succeeds with kind
`STRING_LITERAL`; the token starts at the opening quote and covers the seven characters
of the literal (two quotes around `it`, the doubled quote and `s`). -/
theorem scan_string_literal_doubled_quote (col : Nat) (sym : TokenType) :
    (scan_string_literal (ts_lexer_start "'it''s'".toList col sym)).1 = true
    ∧ (scan_string_literal (ts_lexer_start "'it''s'".toList col sym)).2.result_symbol
        = STRING_LITERAL
    ∧ (scan_string_literal (ts_lexer_start "'it''s'".toList col sym)).2.token_start = 0
    ∧ (scan_string_literal (ts_lexer_start "'it''s'".toList col sym)).2.token_length = 7
    ∧ (scan_string_literal (ts_lexer_start "'it''s'".toList col sym)).2.input = [] := by
  have hin : "'it''s'".toList = Char.ofNat 39 :: "it''s".toList ++ Char.ofNat 39 :: [] := by
    decide
  have h := scan_string_literal_closed_run (Char.ofNat 39) "it''s".toList [] col sym
    (by decide) (by decide) (by decide)
  rw [hin, h]
  exact ⟨rfl, rfl, rfl, rfl, rfl⟩

/-- C18, counterexample: the text `'it''s'` has seven characters, and the token of the
string-literal scanner covers all seven, not six. -/
theorem scan_string_literal_doubled_quote_length :
    "'it''s'".toList.length = 7
    ∧ (scan_string_literal (ts_lexer_start "'it''s'".toList 6 INTEGER_LITERAL)).1 = true
    ∧ (scan_string_literal (ts_lexer_start "'it''s'".toList 6 INTEGER_LITERAL)).2.token_length
        = 7
    ∧ (scan_string_literal (ts_lexer_start "'it''s'".toList 6 INTEGER_LITERAL)).2.token_length
        ≠ 6 := by
  decide

/-! ## The resolver and comment lines -/

/-- The comment markers: `c`, `C`, `*` and `!`. -/
theorem comment_marker_facts (m : Nat) (hm : m = 99 ∨ m = 67 ∨ m = 42 ∨ m = 33) :
    iswspace m = false ∧ m ≠ 59 ∧ m ≠ 13 ∧ m ≠ 10 ∧ m ≠ 0 := by
  rcases hm with h | h | h | h <;> subst h <;> decide

/-- A loop whose class rejects the lookahead changes nothing. -/
theorem while_advance_of_not (p : Nat → Bool) (b : Bool) (l : TSLexer)
    (h : p l.lookahead = false) : while_advance p b l = l := by
  obtain ⟨i, pos, col, ts, te, k⟩ := l
  exact while_advance_none p b i pos col ts te k (by simpa using h)

/-- C15, as amended: for every cursor state whose current character is a comment marker
by the test of the comment recognizer (`!` at any column, `c`, `C` or `*` at column 0)
and whose column is not 5, the resolver succeeds with `END_OF_STATEMENT` and consumes
nothing: the cursor is as before, only the kind is recorded. -/
theorem scan_end_of_statement_at_comment (l : TSLexer)
    (hm : is_comment_character l = true) (hcol : l.column ≠ 5) :
    scan_end_of_statement l = (true, { l with result_symbol := END_OF_STATEMENT }) := by
  have hm2 := hm
  simp only [is_comment_character, get_column, Bool.or_eq_true, Bool.and_eq_true,
    beq_iff_eq] at hm2
  have hfacts : iswspace l.lookahead = false ∧ l.lookahead ≠ 59 ∧ l.lookahead ≠ 13
      ∧ l.lookahead ≠ 10 ∧ l.lookahead ≠ 0 := by
    apply comment_marker_facts
    rcases hm2 with ⟨_, (h | h) | h⟩ | h
    · exact Or.inl h
    · exact Or.inr (Or.inl h)
    · exact Or.inr (Or.inr (Or.inl h))
    · exact Or.inr (Or.inr (Or.inr h))
  obtain ⟨hw, h59, h13, h10, h0⟩ := hfacts
  have heof : l.eof = false := by
    obtain ⟨i, pos, col, ts, te, k⟩ := l
    cases i with
    | nil => simp at h0
    | cons x xs => rfl
  have hcont : scan_continuation l = (false, l) := by
    simp [scan_continuation, get_column, hcol]
  simp only [scan_end_of_statement, beq_iff_eq, h59, heof, Bool.or_false, Bool.false_eq_true,
    if_false, h13, h10, hm, Bool.not_true, scan_end_of_statement_rest,
    while_advance_of_not iswspace true l hw, hcont]

/-- Witness of C15: `!` at column 7 and `c` at column 0. -/
theorem scan_end_of_statement_at_comment_witness :
    scan_end_of_statement ⟨"! note".toList, 0, 7, 0, none, INTEGER_LITERAL⟩
      = (true, ⟨"! note".toList, 0, 7, 0, none, END_OF_STATEMENT⟩)
    ∧ scan_end_of_statement ⟨"c note".toList, 0, 0, 0, none, INTEGER_LITERAL⟩
      = (true, ⟨"c note".toList, 0, 0, 0, none, END_OF_STATEMENT⟩) :=
  ⟨scan_end_of_statement_at_comment ⟨"! note".toList, 0, 7, 0, none, INTEGER_LITERAL⟩
      (by decide) (by decide),
   scan_end_of_statement_at_comment ⟨"c note".toList, 0, 0, 0, none, INTEGER_LITERAL⟩
      (by decide) (by decide)⟩

/-- C15, counterexample: `!` at column 5 passes the test of the comment recognizer, is no
line ending, semicolon or end of input, and yet the resolver consumes it: it is skipped
as a continuation marker, the cursor moves from position 0 to 1 and the kind is
`LINE_CONTINUATION`. -/
theorem scan_end_of_statement_bang_at_column_five :
    is_comment_character ⟨"!x".toList, 0, 5, 0, none, INTEGER_LITERAL⟩ = true
    ∧ scan_end_of_statement ⟨"!x".toList, 0, 5, 0, none, INTEGER_LITERAL⟩
        = (true, ⟨"x".toList, 1, 6, 1, none, LINE_CONTINUATION⟩) := by
  decide

/-! ## The kinds the sub-scanners record -/

theorem advance_result_symbol (l : TSLexer) (b : Bool) :
    (l.advance b).result_symbol = l.result_symbol := by
  obtain ⟨i, pos, col, ts, te, k⟩ := l
  cases i <;> rfl

theorem while_advance_loop_result_symbol (p : Nat → Bool) (b : Bool) :
    ∀ (fuel : Nat) (l : TSLexer),
      (while_advance_loop p b fuel l).result_symbol = l.result_symbol := by
  intro fuel
  induction fuel with
  | zero => intro l; rfl
  | succ n ih =>
    intro l
    unfold while_advance_loop
    split
    · rw [ih, advance_result_symbol]
    · rfl

theorem while_advance_result_symbol (p : Nat → Bool) (b : Bool) (l : TSLexer) :
    (while_advance p b l).result_symbol = l.result_symbol :=
  while_advance_loop_result_symbol p b _ l

theorem scan_int_result_symbol (l : TSLexer) :
    (scan_int l).2.result_symbol = l.result_symbol := by
  unfold scan_int
  split
  · rfl
  · simp [TSLexer.mark_end, while_advance_result_symbol]

theorem scan_number_size_qualifier_result_symbol (l : TSLexer) :
    (scan_number_size_qualifier l).2.result_symbol = l.result_symbol := by
  unfold scan_number_size_qualifier
  split
  · simp only []
    split
    · simp [advance, advance_result_symbol]
    · simp [TSLexer.mark_end, while_advance_result_symbol, advance, advance_result_symbol]
  · rfl

/-- The numeric scanner records `INTEGER_LITERAL` or `FLOAT_LITERAL`, whatever it
returns. -/
theorem scan_number_result_symbol (l : TSLexer) :
    (scan_number l).2.result_symbol = INTEGER_LITERAL
    ∨ (scan_number l).2.result_symbol = FLOAT_LITERAL := by
  have hdec : ∀ (d : Bool) (m : TSLexer),
      (m.result_symbol = INTEGER_LITERAL ∨ m.result_symbol = FLOAT_LITERAL) →
      ((scan_number_decimal d m).result_symbol = INTEGER_LITERAL
        ∨ (scan_number_decimal d m).result_symbol = FLOAT_LITERAL) := by
    intro d m hm
    unfold scan_number_decimal
    split
    · exact Or.inr rfl
    · exact hm
  have hexp : ∀ (m : TSLexer),
      (m.result_symbol = INTEGER_LITERAL ∨ m.result_symbol = FLOAT_LITERAL) →
      ((scan_number_exponent m).2.result_symbol = INTEGER_LITERAL
        ∨ (scan_number_exponent m).2.result_symbol = FLOAT_LITERAL) := by
    intro m hm
    unfold scan_number_exponent
    split
    · simp only []
      split
      · split
        · simpa [scan_int_result_symbol, advance, advance_result_symbol] using hm
        · rw [scan_number_size_qualifier_result_symbol]
          exact Or.inr rfl
      · split
        · simpa [scan_int_result_symbol, advance, advance_result_symbol] using hm
        · rw [scan_number_size_qualifier_result_symbol]
          exact Or.inr rfl
    · rw [scan_number_size_qualifier_result_symbol]
      exact hm
  have h1 : (scan_int { l with result_symbol := INTEGER_LITERAL }).2.result_symbol
      = INTEGER_LITERAL := by
    rw [scan_int_result_symbol]
  have h2 := hdec (scan_int { l with result_symbol := INTEGER_LITERAL }).1 _ (Or.inl h1)
  have h3 : ∀ m : TSLexer,
      (m.result_symbol = INTEGER_LITERAL ∨ m.result_symbol = FLOAT_LITERAL) →
      ((scan_int m).2.result_symbol = INTEGER_LITERAL
        ∨ (scan_int m).2.result_symbol = FLOAT_LITERAL) := by
    intro m hm
    rw [scan_int_result_symbol]
    exact hm
  unfold scan_number
  simp only []
  split
  · exact hexp _ (h3 _ h2)
  · exact h3 _ h2

/-- The BOZ scanner records `BOZ_LITERAL`, whatever it returns. -/
theorem scan_boz_result_symbol (l : TSLexer) :
    (scan_boz l).2.result_symbol = BOZ_LITERAL := by
  have hq : ∀ (b : Bool) (m : TSLexer),
      (scan_boz_quoted b m).2.result_symbol = m.result_symbol := by
    intro b m
    unfold scan_boz_quoted
    split
    · simp only []
      split
      · simp [advance, advance_result_symbol]
      · split
        · simp [advance, advance_result_symbol, while_advance_result_symbol]
        · split <;>
            simp [advance, advance_result_symbol, while_advance_result_symbol,
              TSLexer.mark_end]
    · rfl
  unfold scan_boz
  simp only []
  split
  · rw [hq]
    simp [advance, advance_result_symbol]
  · rw [hq]

theorem scan_continuation_result_symbol (l : TSLexer) (h : (scan_continuation l).1 = true) :
    (scan_continuation l).2.result_symbol = LINE_CONTINUATION := by
  unfold scan_continuation at h ⊢
  split
  · rfl
  · rename_i hc
    simp [hc] at h

theorem scan_comment_result_symbol (l : TSLexer) (h : (scan_comment l).1 = true) :
    (scan_comment l).2.result_symbol = COMMENT_CHARACTER := by
  unfold scan_comment at h ⊢
  split
  · rename_i hc
    simp [hc] at h
  · simp [advance, advance_result_symbol]

/-- A successful resolver records `END_OF_STATEMENT` or `LINE_CONTINUATION`. -/
theorem scan_end_of_statement_result_symbol (l : TSLexer)
    (h : (scan_end_of_statement l).1 = true) :
    (scan_end_of_statement l).2.result_symbol = END_OF_STATEMENT
    ∨ (scan_end_of_statement l).2.result_symbol = LINE_CONTINUATION := by
  have hrest : ∀ m : TSLexer,
      (scan_end_of_statement_rest m).2.result_symbol = END_OF_STATEMENT
      ∨ (scan_end_of_statement_rest m).2.result_symbol = LINE_CONTINUATION := by
    intro m
    unfold scan_end_of_statement_rest
    simp only []
    split
    · rename_i hc
      exact Or.inr (scan_continuation_result_symbol _ hc)
    · exact Or.inl rfl
  unfold scan_end_of_statement at h ⊢
  split
  · exact Or.inl rfl
  · split
    · exact hrest _
    · split
      · exact hrest _
      · split
        · rename_i h1 h2 h3 h4
          simp [h1, h2, h3, h4] at h
        · exact hrest _

/-- The loop of the string-literal scanner keeps the kind `STRING_LITERAL`. -/
theorem scan_string_literal_loop_result_symbol (q : Nat) :
    ∀ (fuel : Nat) (l : TSLexer), l.result_symbol = STRING_LITERAL →
      (scan_string_literal_loop q fuel l).2.result_symbol = STRING_LITERAL := by
  intro fuel
  induction fuel with
  | zero => intro l hl; exact hl
  | succ n ih =>
    intro l hl
    have hadv : ∀ m : TSLexer, m.result_symbol = STRING_LITERAL →
        (advance m).result_symbol = STRING_LITERAL := by
      intro m hm
      simp [advance, advance_result_symbol, hm]
    have hgo : ∀ m : TSLexer, m.result_symbol = STRING_LITERAL →
        (if (m.lookahead == q) = true then
            if ((advance m).lookahead != q) = true then (true, advance m)
            else scan_string_literal_loop q n (advance (advance m))
          else scan_string_literal_loop q n (advance m)).2.result_symbol = STRING_LITERAL := by
      intro m hm
      split
      · split
        · exact hadv m hm
        · exact ih _ (hadv _ (hadv m hm))
      · exact ih _ (hadv m hm)
    unfold scan_string_literal_loop
    split
    · exact hl
    · simp only []
      split
      · exact hgo _ rfl
      · exact hgo l hl

/-- A successful string-literal scanner records `STRING_LITERAL`. -/
theorem scan_string_literal_result_symbol (l : TSLexer)
    (h : (scan_string_literal l).1 = true) :
    (scan_string_literal l).2.result_symbol = STRING_LITERAL := by
  unfold scan_string_literal at h ⊢
  simp only [] at h ⊢
  split
  · rename_i hc
    simp [hc] at h
  · exact scan_string_literal_loop_result_symbol _ _ _ rfl

/-! ## The kinds the dispatcher returns -/

/-- Every success of the dispatcher comes from one sub-scanner, which records its kind:
the string kind needs `STRING_LITERAL` requested, the integer, float and BOZ kinds need
one of these three requested. -/
theorem scan_success_kind (l : TSLexer) (valid_symbols : TokenType → Bool)
    (h : (scan l valid_symbols).1 = true) :
    (scan l valid_symbols).2.result_symbol = END_OF_STATEMENT
    ∨ (scan l valid_symbols).2.result_symbol = LINE_CONTINUATION
    ∨ (scan l valid_symbols).2.result_symbol = COMMENT_CHARACTER
    ∨ ((scan l valid_symbols).2.result_symbol = STRING_LITERAL
        ∧ valid_symbols STRING_LITERAL = true)
    ∨ (((scan l valid_symbols).2.result_symbol = INTEGER_LITERAL
          ∨ (scan l valid_symbols).2.result_symbol = FLOAT_LITERAL
          ∨ (scan l valid_symbols).2.result_symbol = BOZ_LITERAL)
        ∧ (valid_symbols INTEGER_LITERAL || valid_symbols FLOAT_LITERAL
            || valid_symbols BOZ_LITERAL) = true) := by
  -- the numeric and BOZ scanners, tried on the cursor `m`
  have hnum : ∀ (m : TSLexer) (r : Bool × TSLexer),
      r = (if (scan_number m).1 = true then (true, (scan_number m).2)
            else if (scan_boz (scan_number m).2).1 = true then
              (true, (scan_boz (scan_number m).2).2)
            else (false, (scan_boz (scan_number m).2).2)) →
      r.1 = true →
      (r.2.result_symbol = INTEGER_LITERAL ∨ r.2.result_symbol = FLOAT_LITERAL
        ∨ r.2.result_symbol = BOZ_LITERAL) := by
    intro m r hr h1
    subst hr
    by_cases hn : (scan_number m).1 = true
    · simp only [hn, if_true]
      rcases scan_number_result_symbol m with h | h
      · exact Or.inl h
      · exact Or.inr (Or.inl h)
    · simp only [hn, if_false] at h1 ⊢
      by_cases hb : (scan_boz (scan_number m).2).1 = true
      · simp only [hb, if_true]
        exact Or.inr (Or.inr (scan_boz_result_symbol _))
      · simp [hb] at h1
  revert h
  unfold scan
  simp only []
  generalize while_advance iswblank true l = l1
  intro h
  by_cases h1 : (if valid_symbols END_OF_STATEMENT = true then scan_end_of_statement l1
      else (false, l1)).1 = true
  · simp only [h1, if_true] at h ⊢
    by_cases hv : valid_symbols END_OF_STATEMENT = true
    · simp only [hv, if_true] at h1 ⊢
      rcases scan_end_of_statement_result_symbol l1 h1 with h | h
      · exact Or.inl h
      · exact Or.inr (Or.inl h)
    · simp [hv] at h1
  · simp only [h1, if_false] at h ⊢
    generalize while_advance iswspace true
      (if valid_symbols END_OF_STATEMENT = true then scan_end_of_statement l1
        else (false, l1)).2 = l2 at h ⊢
    by_cases h2 : (scan_comment l2).1 = true
    · simp only [h2, if_true] at h ⊢
      exact Or.inr (Or.inr (Or.inl (scan_comment_result_symbol l2 h2)))
    · simp only [h2, if_false] at h ⊢
      generalize (scan_comment l2).2 = l3 at h ⊢
      by_cases h3 : (scan_continuation l3).1 = true
      · simp only [h3, if_true] at h ⊢
        exact Or.inr (Or.inl (scan_continuation_result_symbol l3 h3))
      · simp only [h3, if_false] at h ⊢
        generalize (scan_continuation l3).2 = l4 at h ⊢
        by_cases h4 : (if valid_symbols STRING_LITERAL = true then scan_string_literal l4
            else (false, l4)).1 = true
        · simp only [h4, if_true] at h ⊢
          by_cases hv : valid_symbols STRING_LITERAL = true
          · simp only [hv, if_true] at h4 ⊢
            exact Or.inr (Or.inr (Or.inr (Or.inl
              ⟨scan_string_literal_result_symbol l4 h4, trivial⟩)))
          · simp [hv] at h4
        · simp only [h4, if_false] at h ⊢
          generalize (if valid_symbols STRING_LITERAL = true then scan_string_literal l4
            else (false, l4)).2 = l5 at h ⊢
          by_cases hv : (valid_symbols INTEGER_LITERAL || valid_symbols FLOAT_LITERAL
              || valid_symbols BOZ_LITERAL) = true
          · simp only [hv, if_true] at h ⊢
            exact Or.inr (Or.inr (Or.inr (Or.inr ⟨hnum l5 _ rfl h, trivial⟩)))
          · simp [hv] at h

/-- C16, as amended: if the dispatcher succeeds with kind `STRING_LITERAL` then
`STRING_LITERAL` is requested; if it succeeds with kind `INTEGER_LITERAL`,
`FLOAT_LITERAL` or `BOZ_LITERAL` then at least one of these three kinds is requested (the
numeric and the BOZ scanner are both tried as soon as one of the three is). -/
theorem scan_literal_kind_requested (l : TSLexer) (valid_symbols : TokenType → Bool)
    (h : (scan l valid_symbols).1 = true) :
    ((scan l valid_symbols).2.result_symbol = STRING_LITERAL →
      valid_symbols STRING_LITERAL = true)
    ∧ (((scan l valid_symbols).2.result_symbol = INTEGER_LITERAL
          ∨ (scan l valid_symbols).2.result_symbol = FLOAT_LITERAL
          ∨ (scan l valid_symbols).2.result_symbol = BOZ_LITERAL) →
        (valid_symbols INTEGER_LITERAL || valid_symbols FLOAT_LITERAL
          || valid_symbols BOZ_LITERAL) = true) := by
  rcases scan_success_kind l valid_symbols h with hk | hk | hk | ⟨hk, hv⟩ | ⟨hk, hv⟩
  · rw [hk]; simp
  · rw [hk]; simp
  · rw [hk]; simp
  · rw [hk]; simp [hv]
  · refine ⟨fun hs => ?_, fun _ => hv⟩
    rcases hk with hk | hk | hk <;> rw [hk] at hs <;> cases hs

/-- Witness of C16: `'a'` with only `STRING_LITERAL` requested, and `12` with only
`FLOAT_LITERAL` requested, which is returned as an `INTEGER_LITERAL`. -/
theorem scan_literal_kind_requested_witness :
    ((scan (ts_lexer_start "'a'".toList 6 INTEGER_LITERAL)
        (fun k => decide (k = STRING_LITERAL))).2.result_symbol = STRING_LITERAL →
      (fun k => decide (k = STRING_LITERAL)) STRING_LITERAL = true)
    ∧ ((fun k => decide (k = FLOAT_LITERAL)) INTEGER_LITERAL
        || (fun k => decide (k = FLOAT_LITERAL)) FLOAT_LITERAL
        || (fun k => decide (k = FLOAT_LITERAL)) BOZ_LITERAL) = true :=
  ⟨(scan_literal_kind_requested (ts_lexer_start "'a'".toList 6 INTEGER_LITERAL)
      (fun k => decide (k = STRING_LITERAL)) (by decide)).1,
   (scan_literal_kind_requested (ts_lexer_start "12".toList 6 STRING_LITERAL)
      (fun k => decide (k = FLOAT_LITERAL)) (by decide)).2 (by decide)⟩

/-- C16, counterexample: with only `BOZ_LITERAL` requested, the dispatcher on the text
`1` succeeds with kind `INTEGER_LITERAL`, a kind that is not requested. -/
theorem scan_integer_when_only_boz_requested :
    (fun k => decide (k = BOZ_LITERAL)) INTEGER_LITERAL = false
    ∧ scan (ts_lexer_start "1".toList 6 STRING_LITERAL) (fun k => decide (k = BOZ_LITERAL))
        = (true, ⟨[], 1, 7, 0, some 1, INTEGER_LITERAL⟩) := by
  decide

/-! ## The numeric scanner and `mark_end` -/

theorem advance_token_end (l : TSLexer) (b : Bool) :
    (l.advance b).token_end = l.token_end := by
  obtain ⟨i, pos, col, ts, te, k⟩ := l
  cases i <;> rfl

theorem while_advance_loop_token_end (p : Nat → Bool) (b : Bool) :
    ∀ (fuel : Nat) (l : TSLexer),
      (while_advance_loop p b fuel l).token_end = l.token_end := by
  intro fuel
  induction fuel with
  | zero => intro l; rfl
  | succ n ih =>
    intro l
    unfold while_advance_loop
    split
    · rw [ih, advance_token_end]
    · rfl

theorem while_advance_token_end (p : Nat → Bool) (b : Bool) (l : TSLexer) :
    (while_advance p b l).token_end = l.token_end :=
  while_advance_loop_token_end p b _ l

/-- A numeric scanner that reports no match found no digit run: it only ran the block on
the decimal point, without leading digits. -/
theorem scan_number_of_no_match (l : TSLexer) (h : (scan_number l).1 = false) :
    scan_number l
      = (false, scan_number_decimal false { l with result_symbol := INTEGER_LITERAL }) := by
  rw [scan_number_fst] at h
  simp only [Bool.or_eq_false_iff] at h
  obtain ⟨h2, h1⟩ := h
  have e1 : scan_int { l with result_symbol := INTEGER_LITERAL }
      = (false, { l with result_symbol := INTEGER_LITERAL }) :=
    scan_int_of_not_digit _ (by rw [← scan_int_fst]; exact h1)
  rw [e1] at h2
  have e2 : scan_int (scan_number_decimal false { l with result_symbol := INTEGER_LITERAL })
      = (false, scan_number_decimal false { l with result_symbol := INTEGER_LITERAL }) :=
    scan_int_of_not_digit _ (by rw [← scan_int_fst]; exact h2)
  unfold scan_number
  simp only [e1, e2]
  simp

theorem scan_int_token_end (l : TSLexer) :
    ((scan_int l).1 = true → (scan_int l).2.token_end.isSome = true)
    ∧ (l.token_end.isSome = true → (scan_int l).2.token_end.isSome = true) := by
  unfold scan_int
  split
  · simp
  · simp [TSLexer.mark_end]

theorem scan_number_decimal_token_end (d : Bool) (l : TSLexer)
    (h : l.token_end.isSome = true) :
    (scan_number_decimal d l).token_end.isSome = true := by
  unfold scan_number_decimal
  split
  · simp only []
    split
    · simp [TSLexer.mark_end]
    · simpa [while_advance_token_end, advance, advance_token_end] using h
  · exact h

theorem scan_number_size_qualifier_token_end (l : TSLexer)
    (h : l.token_end.isSome = true) :
    (scan_number_size_qualifier l).2.token_end.isSome = true := by
  unfold scan_number_size_qualifier
  split
  · simp only []
    split
    · simpa [advance, advance_token_end] using h
    · simp [TSLexer.mark_end]
  · exact h

theorem scan_number_exponent_token_end (l : TSLexer) (h : l.token_end.isSome = true) :
    (scan_number_exponent l).2.token_end.isSome = true := by
  unfold scan_number_exponent
  split
  · simp only []
    split <;> split
    · apply (scan_int_token_end _).2
      simpa [advance, advance_token_end] using h
    · apply scan_number_size_qualifier_token_end
      simp [TSLexer.mark_end]
    · apply (scan_int_token_end _).2
      simpa [advance, advance_token_end] using h
    · apply scan_number_size_qualifier_token_end
      simp [TSLexer.mark_end]
  · exact scan_number_size_qualifier_token_end l h

/-- The numeric scanner and `mark_end`: when the numeric scanner returns a match, the token
end has been marked; when it returns no match, the marked end is as it was before the
call. -/
theorem scan_number_mark_end (l : TSLexer) :
    ((scan_number l).1 = true → (scan_number l).2.token_end.isSome = true)
    ∧ ((scan_number l).1 = false → (scan_number l).2.token_end = l.token_end) := by
  constructor
  · intro h
    rw [scan_number_fst] at h
    revert h
    unfold scan_number
    simp only []
    intro h
    rw [if_pos h]
    apply scan_number_exponent_token_end
    rcases Bool.or_eq_true_iff.mp h with h2 | h1
    · exact (scan_int_token_end _).1 h2
    · exact (scan_int_token_end _).2
        (scan_number_decimal_token_end _ _ ((scan_int_token_end _).1 h1))
  · intro h
    rw [scan_number_of_no_match l h]
    simp only [scan_number_decimal]
    split
    · simp [while_advance_token_end, advance, advance_token_end]
    · rfl

/-- C20: on `1. x` the numeric scanner returns a match, but the committed token is
empty: the end is marked after the digit `1` (position 1), then the blank after the dot
is skipped, which moves the token start to position 3, and no further end is marked. -/
theorem scan_number_zero_width_token :
    scan_number (ts_lexer_start "1. x".toList 6 STRING_LITERAL)
      = (true, ⟨"x".toList, 3, 9, 3, some 1, FLOAT_LITERAL⟩)
    ∧ (scan_number (ts_lexer_start "1. x".toList 6 STRING_LITERAL)).2.token_length = 0 := by
  decide

/-! ## The BOZ scanner after a failed numeric attempt -/

/-- The BOZ scanner never moves the token start, and on success it marks the token end
at the position where it stops. -/
theorem scan_boz_token (m : TSLexer) :
    (scan_boz m).2.token_start = m.token_start
    ∧ ((scan_boz m).1 = true → (scan_boz m).2.token_end = some (scan_boz m).2.pos) := by
  have hadv : ∀ n : TSLexer, (advance n).token_start = n.token_start := by
    intro n
    obtain ⟨i, pos, col, ts, te, k⟩ := n
    cases i <;> rfl
  have hwh : ∀ n : TSLexer, (while_advance isxdigit false n).token_start = n.token_start :=
    fun n => (while_advance_loop_include isxdigit _ n).1
  have hq : ∀ (b : Bool) (n : TSLexer),
      (scan_boz_quoted b n).2.token_start = n.token_start
      ∧ ((scan_boz_quoted b n).1 = true →
          (scan_boz_quoted b n).2.token_end = some (scan_boz_quoted b n).2.pos) := by
    intro b n
    unfold scan_boz_quoted
    split
    · simp only []
      split
      · simp [hadv]
      · split
        · simp [hadv, hwh]
        · split
          · simp [hadv, hwh]
          · simp [hadv, hwh, TSLexer.mark_end]
    · simp
  unfold scan_boz
  simp only []
  split
  · obtain ⟨h1, h2⟩ := hq true (advance { m with result_symbol := BOZ_LITERAL })
    exact ⟨by rw [h1, hadv], h2⟩
  · exact hq false _

/-- A skipping loop that starts with the token start at the cursor ends with the token
start at the cursor. -/
theorem while_advance_loop_skip (p : Nat → Bool) :
    ∀ (fuel : Nat) (l : TSLexer), l.token_start = l.pos →
      (while_advance_loop p true fuel l).token_start = (while_advance_loop p true fuel l).pos := by
  intro fuel
  induction fuel with
  | zero => intro l hl; exact hl
  | succ n ih =>
    intro l hl
    unfold while_advance_loop
    split
    · apply ih
      obtain ⟨i, pos, col, ts, te, k⟩ := l
      cases i with
      | nil => exact hl
      | cons x xs => simp
    · exact hl

/-- The cursor a failed numeric attempt leaves, from the start of a scan: untouched
unless the text begins with a dot; after a dot the cursor is behind the dot and the
blanks that follow it, and the token start is still at the dot when no blank was
skipped, and at the cursor when one was. -/
theorem scan_number_decimal_from_start (input : List Char) (col : Nat) :
    ((peek input ≠ 46 ∨ iswblank (peek input.tail) = true) →
      (scan_number_decimal false ⟨input, 0, col, 0, none, INTEGER_LITERAL⟩).token_start
        = (scan_number_decimal false ⟨input, 0, col, 0, none, INTEGER_LITERAL⟩).pos)
    ∧ ((peek input = 46 ∧ iswblank (peek input.tail) = false) →
      (scan_number_decimal false ⟨input, 0, col, 0, none, INTEGER_LITERAL⟩).token_start = 0
      ∧ (scan_number_decimal false ⟨input, 0, col, 0, none, INTEGER_LITERAL⟩).pos = 1) := by
  cases input with
  | nil => simp [scan_number_decimal]
  | cons x xs =>
    by_cases hx : x.toNat = 46
    · by_cases hb : iswblank (peek xs) = true
      · cases xs with
        | nil => simp [iswblank] at hb
        | cons y ys =>
          have hy : iswblank y.toNat = true := by simpa using hb
          have hskip := while_advance_loop_skip iswblank ys.length
            ⟨ys, 0 + 1 + 1, if y.toNat = 10 then 0 else (if x.toNat = 10 then 0 else col + 1) + 1,
              0 + 1 + 1, none, INTEGER_LITERAL⟩ rfl
          simp [scan_number_decimal, hx, advance, while_advance, while_advance_loop, hy] at hskip ⊢
          exact hskip
      · have hb2 : iswblank (peek xs) = false := by simpa using hb
        have hnone := while_advance_none iswblank true xs 1 (col + 1) 0 none INTEGER_LITERAL hb2
        simp [scan_number_decimal, hx, advance, hnone, hb2]
    · simp [scan_number_decimal, hx]

/-- C19, as amended: when, from the start of a scan, the numeric scanner reports no match
and the BOZ scanner tried next succeeds, the token ends where the BOZ scanner stops. It
starts where the BOZ scanner began if the numeric attempt consumed nothing (the text
does not begin with a dot) or skipped a blank after the dot; if the text begins with a
dot that no blank follows, the token starts at that dot (position 0) although the BOZ
scanner began at position 1: the dot the failed attempt consumed is part of the token. -/
theorem scan_boz_after_failed_number (input : List Char) (col : Nat) (sym : TokenType)
    (hfail : (scan_number (ts_lexer_start input col sym)).1 = false)
    (hboz : (scan_boz (scan_number (ts_lexer_start input col sym)).2).1 = true) :
    (scan_boz (scan_number (ts_lexer_start input col sym)).2).2.token_end
      = some (scan_boz (scan_number (ts_lexer_start input col sym)).2).2.pos
    ∧ ((peek input ≠ 46 ∨ iswblank (peek input.tail) = true) →
        (scan_boz (scan_number (ts_lexer_start input col sym)).2).2.token_start
          = (scan_number (ts_lexer_start input col sym)).2.pos)
    ∧ ((peek input = 46 ∧ iswblank (peek input.tail) = false) →
        (scan_boz (scan_number (ts_lexer_start input col sym)).2).2.token_start = 0
        ∧ (scan_number (ts_lexer_start input col sym)).2.pos = 1) := by
  obtain ⟨hts, hend⟩ := scan_boz_token (scan_number (ts_lexer_start input col sym)).2
  refine ⟨hend hboz, ?_, ?_⟩
  · intro h
    rw [hts, scan_number_of_no_match _ hfail]
    exact (scan_number_decimal_from_start input col).1 h
  · intro h
    rw [hts, scan_number_of_no_match _ hfail]
    exact (scan_number_decimal_from_start input col).2 h

/-- Witness of C19: on `B'1010'` nothing is consumed by the failed numeric attempt, and
on `. B'1010'` a blank after the dot is skipped; in both the token starts where the BOZ
scanner began. -/
theorem scan_boz_after_failed_number_witness :
    (scan_boz (scan_number (ts_lexer_start "B'1010'".toList 6 STRING_LITERAL)).2).2.token_start
      = (scan_number (ts_lexer_start "B'1010'".toList 6 STRING_LITERAL)).2.pos
    ∧ (scan_boz (scan_number (ts_lexer_start ". B'1010'".toList 6 STRING_LITERAL)).2).2.token_start
      = (scan_number (ts_lexer_start ". B'1010'".toList 6 STRING_LITERAL)).2.pos :=
  ⟨(scan_boz_after_failed_number "B'1010'".toList 6 STRING_LITERAL (by decide)
      (by decide)).2.1 (by decide),
   (scan_boz_after_failed_number ". B'1010'".toList 6 STRING_LITERAL (by decide)
      (by decide)).2.1 (by decide)⟩

/-- C19, counterexample: on `.B'1010'` with only `BOZ_LITERAL` requested the numeric
scanner reports no match after it consumed the dot, the BOZ scanner succeeds, and the
token of the dispatcher runs from position 0 to position 8: its first character is the
dot, which the BOZ scanner never consumed (it began at position 1). -/
theorem scan_boz_token_holds_dot :
    ".B'1010'".toList.head? = some (Char.ofNat 46)
    ∧ scan_number (ts_lexer_start ".B'1010'".toList 6 STRING_LITERAL)
        = (false, ⟨"B'1010'".toList, 1, 7, 0, none, FLOAT_LITERAL⟩)
    ∧ scan (ts_lexer_start ".B'1010'".toList 6 STRING_LITERAL)
          (fun k => decide (k = BOZ_LITERAL))
        = (true, ⟨[], 8, 14, 0, some 8, BOZ_LITERAL⟩) := by
  decide

/-! ## The numeric scanner: the size qualifier -/

theorem is_ident_char_ne_newline (c : Nat) (h : is_ident_char c = true) : c ≠ 10 := by
  intro hc
  subst hc
  exact absurd h (by decide)

/-- The size qualifier on an underscore `u` followed by a letter or digit: the underscore
and the longest run `a :: run` of characters that `is_ident_char` accepts are consumed
and the end is marked after them. -/
theorem scan_number_size_qualifier_run (u a : Char) (run rest : List Char)
    (pos col ts : Nat) (te : Option Nat) (k : TokenType) (hu : u.toNat = 95)
    (ha : isalnum a.toNat = true) (hrun : ∀ c ∈ a :: run, is_ident_char c.toNat = true)
    (hrest : is_ident_char (peek rest) = false) :
    scan_number_size_qualifier ⟨u :: (a :: run) ++ rest, pos, col, ts, te, k⟩
      = (true, ⟨rest, pos + 1 + (a :: run).length, col + 1 + (a :: run).length, ts,
          some (pos + 1 + (a :: run).length), k⟩) := by
  have hcol : column_after (col + 1) (a :: run) = col + 1 + (a :: run).length :=
    column_after_of_no_newline _ _ (fun c hc => is_ident_char_ne_newline _ (hrun c hc))
  have hw := while_advance_run is_ident_char false (a :: run) rest (pos + 1) (col + 1) ts te k
    hrun hrest
  rw [hcol] at hw
  simp only [List.cons_append] at hw
  simp [scan_number_size_qualifier, hu, advance, ha, hw]

/-- The size qualifier on an underscore that no letter or digit follows: the underscore
is consumed and the marked end stays. -/
theorem scan_number_size_qualifier_junk (u : Char) (rest : List Char)
    (pos col ts : Nat) (te : Option Nat) (k : TokenType) (hu : u.toNat = 95)
    (ha : isalnum (peek rest) = false) :
    scan_number_size_qualifier ⟨u :: rest, pos, col, ts, te, k⟩
      = (true, ⟨rest, pos + 1, col + 1, ts, te, k⟩) := by
  simp [scan_number_size_qualifier, hu, advance, ha]

/-- The numeric scanner on the digits `ds` followed by an underscore: the end is marked
after `ds`, the kind is `INTEGER_LITERAL`, and the size qualifier is tried. -/
theorem scan_number_integer_then_underscore (ds rest : List Char) (u : Char) (col : Nat)
    (sym : TokenType) (hne : ds ≠ []) (hds : ∀ c ∈ ds, iswdigit c.toNat = true)
    (hu : u.toNat = 95) :
    scan_number (ts_lexer_start (ds ++ u :: rest) col sym)
      = scan_number_size_qualifier
          ⟨u :: rest, ds.length, col + ds.length, 0, some ds.length, INTEGER_LITERAL⟩ := by
  have hud : iswdigit (peek (u :: rest)) = false := by simp [hu, iswdigit]
  have h1 := scan_int_run ds (u :: rest) 0 col 0 none INTEGER_LITERAL hne hds hud
  have h2 := fun pos te => scan_int_none (u :: rest) pos (col + ds.length) 0 te
    INTEGER_LITERAL hud
  simp only [scan_number, ts_lexer_start, h1, scan_number_decimal, lookahead_mk, peek_cons, hu,
    h2, Bool.or_true, if_true, scan_number_exponent]
  simp [is_exp_sentinel, to_char, h2, hu]

/-- The numeric scanner on `ds . fs` with both digit runs non-empty, followed by an
underscore: the end is marked after `fs`, the kind is `FLOAT_LITERAL`, and the size
qualifier is tried. -/
theorem scan_number_float_then_underscore (ds fs rest : List Char) (dot u : Char) (col : Nat)
    (sym : TokenType) (hne : ds ≠ []) (hds : ∀ c ∈ ds, iswdigit c.toNat = true)
    (hdot : dot.toNat = 46) (hfne : fs ≠ []) (hfs : ∀ c ∈ fs, iswdigit c.toNat = true)
    (hu : u.toNat = 95) :
    scan_number (ts_lexer_start (ds ++ dot :: fs ++ u :: rest) col sym)
      = scan_number_size_qualifier
          ⟨u :: rest, ds.length + 1 + fs.length, col + ds.length + 1 + fs.length, 0,
            some (ds.length + 1 + fs.length), FLOAT_LITERAL⟩ := by
  have hud : iswdigit (peek (u :: rest)) = false := by simp [hu, iswdigit]
  have hdotd : iswdigit dot.toNat = false := by rw [hdot]; decide
  have h1 := scan_int_run ds (dot :: (fs ++ u :: rest)) 0 col 0 none INTEGER_LITERAL hne hds
    (by simpa using hdotd)
  cases fs with
  | nil => exact absurd rfl hfne
  | cons f fs =>
    have hf : iswdigit f.toNat = true := hfs f (List.mem_cons_self _ _)
    have hfb : iswblank (peek (f :: fs ++ u :: rest)) = false := by
      simp only [List.cons_append, peek_cons]
      simp only [iswdigit, Bool.and_eq_true, decide_eq_true_eq] at hf
      simp only [iswblank, Bool.or_eq_false_iff, beq_eq_false_iff_ne]
      omega
    have hfa : iswalnum f.toNat = true := by
      simp [iswalnum, hf]
    have hw := fun pos c te => while_advance_none iswblank true (f :: fs ++ u :: rest) pos c 0
      te INTEGER_LITERAL hfb
    have h2 := fun pos c te => scan_int_run (f :: fs) (u :: rest) pos c 0 te FLOAT_LITERAL
      (by simp) hfs hud
    simp only [List.cons_append] at hw h2 h1
    simp only [scan_number, ts_lexer_start, List.append_assoc, List.cons_append, h1,
      scan_number_decimal, lookahead_mk, peek_cons, hdot, beq_self_eq_true, if_true, advance,
      advance_mk_cons, hw, hfa, Bool.not_true, Bool.and_false, Bool.false_eq_true, if_false,
      h2, Bool.or_true, scan_number_exponent, hu]
    simp [is_exp_sentinel, to_char, hu]

/-- The conversion to `char` changes no code point below 256, so `is_ident_char` accepts
such a code point exactly when it is a letter, a digit or the underscore. -/
theorem is_ident_char_of_small (c : Nat) (hc : c < 256) :
    is_ident_char c = (iswalnum c || c == 95) := by
  simp [is_ident_char, to_char, Nat.mod_eq_of_lt hc]

/-- The numbers `3.14_8` and `5_`, by the lemmas above: a float of six
characters with its size qualifier, and the integer `5` with the underscore left out. -/
theorem scan_number_size_qualifier_examples (col : Nat) (sym : TokenType) :
    scan_number (ts_lexer_start ("3".toList ++ Char.ofNat 46 :: "14".toList
        ++ Char.ofNat 95 :: ("8".toList ++ [])) col sym)
      = (true, ⟨[], 6, col + 6, 0, some 6, FLOAT_LITERAL⟩)
    ∧ scan_number (ts_lexer_start ("5".toList ++ Char.ofNat 95 :: []) col sym)
      = (true, ⟨[], 2, col + 1 + 1, 0, some 1, INTEGER_LITERAL⟩) := by
  constructor
  · rw [scan_number_float_then_underscore "3".toList "14".toList ("8".toList ++ [])
      (Char.ofNat 46) (Char.ofNat 95) col sym (by decide) (by decide) (by decide) (by decide)
      (by decide) (by decide)]
    exact scan_number_size_qualifier_run (Char.ofNat 95) (Char.ofNat 56) [] [] _ _ 0 _
      FLOAT_LITERAL (by decide) (by decide) (by decide) (by decide)
  · rw [scan_number_integer_then_underscore "5".toList [] (Char.ofNat 95) col sym (by decide)
      (by decide) (by decide)]
    exact scan_number_size_qualifier_junk (Char.ofNat 95) [] _ _ 0 _ INTEGER_LITERAL
      (by decide) (by decide)

/-- C11: on `3.14_8≤` followed by a blank (U+2264 after the size qualifier `_8`) the
`FLOAT_LITERAL` token covers seven characters, not the six of `3.14_8`: `is_ident_char`
receives the code point 8804 converted to `char`, which is 100, the letter `d`, so the
run of identifier characters goes on over `≤`. -/
theorem scan_number_wide_ident_char :
    "3.14_8≤ ".toList = "3.14_8".toList ++ Char.ofNat 8804 :: " ".toList
    ∧ iswalnum 8804 = false ∧ 8804 ≠ 95
    ∧ to_char 8804 = 100 ∧ is_ident_char 8804 = true
    ∧ scan_number (ts_lexer_start "3.14_8≤ ".toList 6 STRING_LITERAL)
        = (true, ⟨" ".toList, 7, 13, 0, some 7, FLOAT_LITERAL⟩) := by
  decide

end FixedFormFortran
